import Mathlib

/-!
Formal model of the document ingestion pipeline of solicitor-brain-v2
(services/api): chunking, OCR/extraction, embeddings, upload gateway,
job orchestration and similarity search.  Python strings are modelled as
`List Char`; machine floats of the original (similarity scores, OCR
confidences) are modelled as rationals; external libraries (tiktoken,
langchain splitters, the sentence-transformer model, hashlib, tesseract)
are abstract function parameters, while all repository logic is
translated directly from the source files.
-/

namespace SolicitorBrain

/-! ## Python string primitives -/

/-- Python `str.isspace` characters relevant to `str.strip()` (ASCII range,
which is all the pipeline's gates depend on). -/
def pyWS (c : Char) : Bool :=
  c == ' ' || c == '\t' || c == '\n' || c == '\r' || c == '\x0b' || c == '\x0c'

/-- Remove trailing whitespace (the right half of Python `str.strip()`). -/
def dropTrailingWS (l : List Char) : List Char :=
  (l.reverse.dropWhile pyWS).reverse

/-- Python `str.strip()` with no argument: drop leading and trailing
whitespace. -/
def pyStrip (l : List Char) : List Char :=
  dropTrailingWS (l.dropWhile pyWS)

/-- Python `sep.join(parts)`. -/
def pyJoin (sep : List Char) : List (List Char) → List Char
  | [] => []
  | [x] => x
  | x :: y :: xs => x ++ sep ++ pyJoin sep (y :: xs)

/-! ## Chunking Stage — `app/services/chunking.py`

`count_tokens` (tiktoken), the two langchain text splitters and the
regex-based `clean_text` are external computations from this module's
point of view, so they are passed in as the record `ChunkingExternals`.
All control flow of `chunk_document` / `semantic_chunk_document` /
`token_chunk_document` / `smart_chunk_document` is translated directly.
-/

/-- The fields of the dictionary built by `create_chunk_metadata` that the
pipeline reads back (`text`, `chunk_index`, `char_count`, `token_count`).
The purely decorative pattern-extraction fields (dates, amounts,
citations, headings) are not modelled. -/
structure ChunkData where
  text : List Char
  chunk_index : Nat
  char_count : Nat
  token_count : Nat
deriving DecidableEq, Repr

/-- External functions used by `chunking.py`:
`splitSemantic c o t` models `RecursiveCharacterTextSplitter(chunk_size=c,
chunk_overlap=o, length_function=count_tokens, separators=[...]).split_text(t)`;
`splitToken` models `TokenTextSplitter(...).split_text`;
`countTokens` models `count_tokens` (tiktoken `cl100k_base`);
`cleanText` models the regex pipeline `clean_text`. -/
structure ChunkingExternals where
  splitSemantic : Nat → Nat → List Char → List (List Char)
  splitToken : Nat → Nat → List Char → List (List Char)
  countTokens : List Char → Nat
  cleanText : List Char → List Char

/-- Model of `create_chunk_metadata(chunk_text, chunk_index)`: note `text` is the
stripped chunk text while `char_count` is the length of the unstripped
text, exactly as in the source. -/
def create_chunk_metadata (ext : ChunkingExternals) (chunk_text : List Char)
    (chunk_index : Nat) : ChunkData :=
  { text := pyStrip chunk_text
    chunk_index := chunk_index
    char_count := chunk_text.length
    token_count := ext.countTokens chunk_text }

/-- Model of `semantic_chunk_document`: split with the recursive splitter
(configured with `chunk_size * 3` characters and `chunk_overlap * 3`
overlap), then `enumerate` the pieces into metadata records.
`min_chunk_size` is accepted and ignored, as in the source. -/
def semantic_chunk_document (ext : ChunkingExternals) (text : List Char)
    (chunk_size chunk_overlap _min_chunk_size : Nat) : List ChunkData :=
  let chunks := ext.splitSemantic (chunk_size * 3) (chunk_overlap * 3) text
  chunks.enum.map (fun p => create_chunk_metadata ext p.2 p.1)

/-- Model of `token_chunk_document`: split with the token splitter, then
`enumerate` into metadata records. -/
def token_chunk_document (ext : ChunkingExternals) (text : List Char)
    (chunk_size chunk_overlap _min_chunk_size : Nat) : List ChunkData :=
  let chunks := ext.splitToken chunk_size chunk_overlap text
  chunks.enum.map (fun p => create_chunk_metadata ext p.2 p.1)

/-- Model of `chunk_document(text, chunk_size, chunk_overlap, min_chunk_size,
use_semantic_chunking)`: short-text gate, clean, split with enumeration,
then drop chunks whose `token_count` is below `min_chunk_size`. -/
def chunk_document (ext : ChunkingExternals) (text : List Char)
    (chunk_size chunk_overlap min_chunk_size : Nat)
    (use_semantic_chunking : Bool) : List ChunkData :=
  if text.isEmpty || (pyStrip text).length < 50 then []
  else
    let cleaned := ext.cleanText text
    let chunks_data :=
      if use_semantic_chunking then
        semantic_chunk_document ext cleaned chunk_size chunk_overlap min_chunk_size
      else
        token_chunk_document ext cleaned chunk_size chunk_overlap min_chunk_size
    chunks_data.filter (fun c => min_chunk_size ≤ c.token_count)

/-- The size profile chosen by `smart_chunk_document` from the document
type: `(chunk_size, chunk_overlap)`. -/
def smart_chunk_profile (document_type : Option String) : Nat × Nat :=
  match document_type with
  | some "letter" => (400, 80)
  | some "report" => (1000, 150)
  | some "witness_statement" => (800, 120)
  | some "contract" => (900, 150)
  | _ => (800, 120)

/-- Model of `smart_chunk_document(text, document_type, ocr_metadata)`: pick the
size profile and call `chunk_document` with the default
`min_chunk_size = 50` and semantic chunking.  The post-processing loop of
the source only adds decorative metadata keys to each chunk dictionary
and does not change `text` / `chunk_index` / `token_count` /
`char_count`, so it is the identity on the modelled fields. -/
def smart_chunk_document (ext : ChunkingExternals) (text : List Char)
    (document_type : Option String) : List ChunkData :=
  let profile := smart_chunk_profile document_type
  chunk_document ext text profile.1 profile.2 50 true

/-! ## Extraction Stage — `app/services/ocr.py`

Per-page results of the external engines (PyPDF2 text layer, tesseract
OCR) are inputs; `ocr_pdf_enhanced`, `process_pdf_enhanced` and the
dispatch `process_document_ocr` are translated directly.  OCR confidences
(floats in the source) are rationals. -/

/-- Outcome of `pytesseract` on one rendered page: either the extracted
text with the page's average confidence, or a raised exception with its
message. -/
inductive PageOcr where
  | ok (text : List Char) (conf : ℚ)
  | err (msg : List Char)
deriving DecidableEq, Repr

/-- The metadata dictionary threaded through `ocr.py` (the fields the
pipeline and the claims read). -/
structure OcrMeta where
  extraction_method : String
  page_count : Nat
  has_text_layer : Bool
  ocr_confidence : List ℚ
  failed_pages : List Nat
  processing_errors : List (List Char)
deriving DecidableEq, Repr

/-- The page delimiter written by both extraction paths:
`f"--- Page {n} ---\n"` (the source appends page text right after it). -/
def pageMarker (n : Nat) : List Char :=
  '-' :: '-' :: '-' :: ' ' :: 'P' :: 'a' :: 'g' :: 'e' :: ' ' ::
    (Nat.toDigits 10 n ++ (' ' :: '-' :: '-' :: '-' :: '\n' :: []))

/-- One step of the page loop of `ocr_pdf_enhanced`: accumulates
`(text_content, ocr_confidence, failed_pages, processing_errors)`. -/
def ocrPageStep (acc : List (List Char) × List ℚ × List Nat × List (List Char))
    (p : Nat × PageOcr) :
    List (List Char) × List ℚ × List Nat × List (List Char) :=
  match p.2 with
  | .ok t conf =>
      if (pyStrip t).isEmpty then
        (acc.1, acc.2.1 ++ [conf], acc.2.2.1 ++ [p.1 + 1], acc.2.2.2)
      else
        (acc.1 ++ [pageMarker (p.1 + 1) ++ t], acc.2.1 ++ [conf], acc.2.2.1, acc.2.2.2)
  | .err m =>
      (acc.1, acc.2.1, acc.2.2.1 ++ [p.1 + 1],
        acc.2.2.2 ++ [('O' :: 'C' :: 'R' :: ' ' :: 'f' :: 'a' :: 'i' :: 'l' :: 'e' :: 'd' :: ' ' :: 'f' :: 'o' :: 'r' :: ' ' :: 'p' :: 'a' :: 'g' :: 'e' :: ' ' :: Nat.toDigits 10 (p.1 + 1)) ++ (':' :: ' ' :: m)])

/-- Model of `ocr_pdf_enhanced(file_path)` given the per-page OCR outcomes:
per-page failures (exception, or empty stripped text) are recorded in
`failed_pages` / `processing_errors` and the loop continues; the joined
text uses `"\n\n"` between page blocks. -/
def ocr_pdf_enhanced (pages : List PageOcr) : List Char × OcrMeta :=
  let acc := pages.enum.foldl ocrPageStep ([], [], [], [])
  (pyJoin ('\n' :: '\n' :: []) acc.1,
    { extraction_method := "ocr"
      page_count := pages.length
      has_text_layer := false
      ocr_confidence := acc.2.1
      failed_pages := acc.2.2.1
      processing_errors := acc.2.2.2 })

/-- Model of `process_pdf_enhanced` direct-text path: keep the pages whose
extracted text layer is non-blank, each prefixed with its page marker. -/
def directTextContent (directPages : List (List Char)) : List (List Char) :=
  (directPages.enum.filter (fun p => !(pyStrip p.2).isEmpty)).map
    (fun p => pageMarker (p.1 + 1) ++ p.2)

/-- Model of `process_pdf_enhanced(file_path)`.
`directPages = none` models a PyPDF2 exception (recorded and non-fatal:
the function falls back to OCR); `ocrPages = none` models a
`convert_from_path` failure inside `ocr_pdf_enhanced`, which re-raises. -/
def process_pdf_enhanced (directPages : Option (List (List Char)))
    (ocrPages : Option (List PageOcr)) :
    Except (List Char) (List Char × OcrMeta) :=
  match directPages with
  | some pages =>
      let content := directTextContent pages
      if !content.isEmpty then
        .ok (pyJoin ('\n' :: '\n' :: []) content,
          { extraction_method := "direct_text"
            page_count := pages.length
            has_text_layer := true
            ocr_confidence := []
            failed_pages := []
            processing_errors := [] })
      else
        match ocrPages with
        | some ps => .ok (ocr_pdf_enhanced ps)
        | none => .error ('O' :: 'C' :: 'R' :: ' ' :: 'p' :: 'r' :: 'o' :: 'c' :: 'e' :: 's' :: 's' :: 'i' :: 'n' :: 'g' :: ' ' :: 'f' :: 'a' :: 'i' :: 'l' :: 'e' :: 'd' :: [])
  | none =>
      match ocrPages with
      | some ps => .ok (ocr_pdf_enhanced ps)
      | none => .error ('O' :: 'C' :: 'R' :: ' ' :: 'p' :: 'r' :: 'o' :: 'c' :: 'e' :: 's' :: 's' :: 'i' :: 'n' :: 'g' :: ' ' :: 'f' :: 'a' :: 'i' :: 'l' :: 'e' :: 'd' :: [])

/-- The stored file as the extraction engines see it, one constructor per
mime-type branch of `process_document_ocr`:
* `pdf`: the per-page text layer (`none` = PyPDF2 raised) and the
  per-page OCR outcomes (`none` = pdf-to-image conversion raised);
* `image`: the tesseract output (`none` = the OCR call raised);
* `textFile`: the file's content read directly. -/
inductive FileInput where
  | pdf (directPages : Option (List (List Char))) (ocrPages : Option (List PageOcr))
  | image (ocrText : Option (List Char))
  | textFile (content : List Char)
deriving DecidableEq, Repr

/-- Model of `process_document_ocr(file_path, mime_type)`. -/
def process_document_ocr (input : FileInput) :
    Except (List Char) (List Char × OcrMeta) :=
  match input with
  | .pdf direct ocr => process_pdf_enhanced direct ocr
  | .image t =>
      match t with
      | some text =>
          .ok (text,
            { extraction_method := "image_ocr", page_count := 0,
              has_text_layer := false, ocr_confidence := [],
              failed_pages := [], processing_errors := [] })
      | none => .error ('i' :: 'm' :: 'a' :: 'g' :: 'e' :: ' ' :: 'O' :: 'C' :: 'R' :: ' ' :: 'f' :: 'a' :: 'i' :: 'l' :: 'e' :: 'd' :: [])
  | .textFile content =>
      .ok (content,
        { extraction_method := "direct_text", page_count := 0,
          has_text_layer := false, ocr_confidence := [],
          failed_pages := [], processing_errors := [] })

/-! ## Worker tasks — `app/services/worker_tasks.py`

The document row (`app/models/document.py`) and its chunk rows are
explicit state; each stage task returns `Except` mirroring a raised
`TaskError`, and the stage's database commit is the returned updated
state. -/

/-- The `document_chunks` columns the pipeline writes
(`app/models/document.py`, `DocumentChunk`). -/
structure ChunkRec where
  chunk_index : Nat
  text : List Char
  tokens : Nat
  embedding : Option (List ℚ)
deriving DecidableEq, Repr

/-- The `documents` columns the pipeline reads and writes
(`app/models/document.py`, `Document`). -/
structure DocumentRow where
  id : Nat
  case_id : Nat
  filename : String
  file_hash : List Char
  file_size : Nat
  document_type : Option String
  ocr_completed : Bool
  ocr_text : Option (List Char)
  page_count : Option Nat
  processed : Bool
  processing_error : Option (List Char)
  chunks_generated : Nat
deriving DecidableEq, Repr

/-- Model of `Vector(384)` on `DocumentChunk.embedding`, and
`settings.EMBEDDING_DIMENSION`. -/
def EMBEDDING_DIMENSION : Nat := 384

/-- Model of `process_document_ocr_task(document, db)`: run extraction, reject
text shorter than 10 characters once stripped, else persist
`ocr_text` / `ocr_completed` / `page_count`.  On failure the committed
document carries `processing_error` prefixed exactly as the source's
`f"OCR processing failed: {e}"`. -/
def process_document_ocr_task (doc : DocumentRow) (input : FileInput) :
    Except (List Char) (DocumentRow × OcrMeta) :=
  match process_document_ocr input with
  | .error e => .error ("OCR processing failed: ".toList ++ e)
  | .ok (text, meta) =>
      if text.isEmpty || (pyStrip text).length < 10 then
        .error ("OCR processing failed: OCR produced no usable text".toList)
      else
        .ok ({ doc with
                ocr_text := some text
                ocr_completed := true
                page_count := some meta.page_count }, meta)

/-- Conversion of a chunk dictionary into the `DocumentChunk` row created
by `process_document_chunking_task` (embedding left `NULL`). -/
def chunkDataToRec (c : ChunkData) : ChunkRec :=
  { chunk_index := c.chunk_index, text := c.text, tokens := c.token_count,
    embedding := none }

/-- Model of `process_document_chunking_task(document, db)`: requires non-empty
`ocr_text` (Python truthiness: `None` and `""` both fail), chunks it with
`smart_chunk_document`, errors when no chunks survive, else fully
replaces the document's chunk rows and persists
`chunks_generated` / `processed`. -/
def process_document_chunking_task (ext : ChunkingExternals)
    (doc : DocumentRow) :
    Except (List Char) (DocumentRow × List ChunkRec) :=
  match doc.ocr_text with
  | none => .error ("Chunking failed: No OCR text available for chunking".toList)
  | some t =>
      if t.isEmpty then
        .error ("Chunking failed: No OCR text available for chunking".toList)
      else
        let chunks_data := smart_chunk_document ext t doc.document_type
        if chunks_data.isEmpty then
          .error ("Chunking failed: Chunking produced no results".toList)
        else
          .ok ({ doc with
                  chunks_generated := chunks_data.length
                  processed := true },
               chunks_data.map chunkDataToRec)

/-- Model of `process_document_embeddings_task(document, db)` given the vectors
returned by `generate_embeddings` for the chunk texts: errors when there
are no chunks or when the vector count differs from the chunk count
(both raised before any chunk row is touched); otherwise every vector is
written onto its chunk and the session commits once.  At that commit the
`Vector(384)` type of `DocumentChunk.embedding` (`models/document.py`)
makes pgvector reject any vector whose dimension is not 384: the commit
raises, the stage's handler re-raises it as a retryable `TaskError`
prefixed `Embedding generation failed:`, and the rolled-back transaction
persists nothing. -/
def process_document_embeddings_task (chunks : List ChunkRec)
    (embeddings : List (List ℚ)) :
    Except (List Char) (List ChunkRec) :=
  if chunks.isEmpty then
    .error ("Embedding generation failed: No chunks found for embedding generation".toList)
  else if embeddings.length ≠ chunks.length then
    .error ("Embedding generation failed: Embedding count mismatch".toList)
  else if embeddings.all (fun e => e.length == EMBEDDING_DIMENSION) then
    .ok (List.zipWith (fun c e => { c with embedding := some e }) chunks embeddings)
  else
    .error ("Embedding generation failed: expected 384 dimensions".toList)

/-- Model of `finalize_document_processing`: mark processed, clear the error. -/
def finalize_document_processing (doc : DocumentRow) : DocumentRow :=
  { doc with processed := true, processing_error := none }

/-- Combined per-document state owned by the worker: the document row and
its chunk rows. -/
structure DocState where
  doc : DocumentRow
  chunks : List ChunkRec
deriving DecidableEq, Repr

/-- Model of `process_document_pipeline(document_id)`.  Stages run unconditionally
in order OCR → chunking → embeddings → finalize; each stage that is
entered is appended to the returned trace; the first failing stage aborts
the pipeline, and the top-level handler persists
`f"Document processing failed: {e}"` on the document.  The completion
flags `ocr_completed` / `processed` are never consulted to skip a
stage. -/
def process_document_pipeline (ext : ChunkingExternals) (st : DocState)
    (input : FileInput) (embeddings : List (List ℚ)) :
    Except (List Char) Unit × DocState × List String :=
  match process_document_ocr_task st.doc input with
  | .error e =>
      (.error e,
       { st with doc := { st.doc with
           processing_error := some ("Document processing failed: ".toList ++ e) } },
       ["ocr"])
  | .ok (d1, _) =>
      match process_document_chunking_task ext d1 with
      | .error e =>
          (.error e,
           { doc := { d1 with
               processing_error := some ("Document processing failed: ".toList ++ e) },
             chunks := st.chunks },
           ["ocr", "chunking"])
      | .ok (d2, cs) =>
          match process_document_embeddings_task cs embeddings with
          | .error e =>
              (.error e,
               { doc := { d2 with
                   processing_error := some ("Document processing failed: ".toList ++ e) },
                 chunks := cs },
               ["ocr", "chunking", "embeddings"])
          | .ok cs2 =>
              (.ok (),
               { doc := finalize_document_processing d2, chunks := cs2 },
               ["ocr", "chunking", "embeddings", "finalize"])

/-! ## Ingestion Gateway — `app/api/endpoints/documents.py` — and
Job Orchestrator — `app/services/task_manager.py`, `rq` semantics.

The database and the `rq`/Redis queue are one explicit state record.
SHA-256 (`calculate_file_hash`) is an abstract function of the uploaded
bytes.  An `rq` job enqueued without a retry policy (as every job in
`task_manager.py` is) moves to the failed registry on its first failure
and is never re-enqueued; `worker_step` translates that semantics
together with `process_document_pipeline`'s error handler. -/

/-- Model of `settings.MAX_FILE_SIZE`. -/
def MAX_FILE_SIZE : Nat := 100 * 1024 * 1024

/-- Model of `settings.ALLOWED_EXTENSIONS`. -/
def ALLOWED_EXTENSIONS : List String := [".pdf", ".png", ".jpg", ".jpeg", ".docx", ".txt"]

/-- An `rq` job as used by `task_manager.py` (no `Retry` object is ever
passed, and neither `rq`'s job nor this repository's queue layer keeps an
attempt counter for it). -/
structure RqJob where
  id : Nat
  document_id : Nat
  status : String
deriving DecidableEq, Repr

/-- Gateway-plus-orchestrator state: the `documents` rows (with their
chunk rows), the known case ids, the `rq` jobs with the FIFO queue of
pending job ids, and the number of `temp_*` files currently on disk. -/
structure SystemState where
  docs : List (DocumentRow × List ChunkRec)
  cases : List Nat
  jobs : List RqJob
  queue : List Nat
  tempFiles : Nat
  nextDocId : Nat
  nextJobId : Nat
deriving DecidableEq, Repr

/-- Model of `TaskManager.enqueue_document_processing(document_id, priority)`:
creates one queued job on the document-processing queue (priority only
halves the timeout in the source; both branches use the same queue) and
stores the job reference. -/
def enqueue_document_processing (st : SystemState) (document_id : Nat)
    (_priority : String) : Nat × SystemState :=
  let jid := st.nextJobId
  (jid,
   { st with
      jobs := st.jobs ++ [{ id := jid, document_id := document_id, status := "queued" }]
      queue := st.queue ++ [jid]
      nextJobId := jid + 1 })

/-- Result of `upload_document`: an `HTTPException` with its status code,
or the success payload `{document_id, duplicate, job_id}`. -/
inductive UploadOutcome where
  | rejected (statusCode : Nat)
  | success (document_id : Nat) (duplicate : Bool) (job_id : Option Nat)
deriving DecidableEq, Repr

/-- Model of `upload_document`: validate size and extension, check the case,
write the temp file, hash it, look up `(file_hash, case_id)`;
a duplicate removes the temp file and returns the existing id with
`duplicate=True` and no job; otherwise the temp file is renamed into
place, a document row is created and a pipeline job enqueued.
`scalar_one_or_none` on two or more matches raises, which the endpoint's
handler turns into HTTP 500 after removing the temp file. -/
def upload_document (sha256 : List Nat → List Char) (st : SystemState)
    (case_id : Nat) (fileBytes : List Nat) (filename : String) (ext : String)
    (declaredSize : Option Nat) (document_type : Option String)
    (priority : String) : UploadOutcome × SystemState :=
  if (match declaredSize with | some s => decide (MAX_FILE_SIZE < s) | none => false) then
    (.rejected 413, st)
  else if !(ALLOWED_EXTENSIONS.contains ext) then
    (.rejected 400, st)
  else if !(st.cases.contains case_id) then
    (.rejected 404, st)
  else
    let st1 := { st with tempFiles := st.tempFiles + 1 }
    let h := sha256 fileBytes
    match st1.docs.filter (fun d => d.1.file_hash == h && d.1.case_id == case_id) with
    | [] =>
        let doc : DocumentRow :=
          { id := st1.nextDocId, case_id := case_id, file_hash := h
            filename := filename, file_size := fileBytes.length
            document_type := document_type, ocr_completed := false
            ocr_text := none, page_count := none, processed := false
            processing_error := none, chunks_generated := 0 }
        let st2 := { st1 with
          tempFiles := st1.tempFiles - 1
          docs := st1.docs ++ [(doc, [])]
          nextDocId := st1.nextDocId + 1 }
        let r := enqueue_document_processing st2 doc.id priority
        (.success doc.id false (some r.1), r.2)
    | [d] =>
        (.success d.1.id true none, { st1 with tempFiles := st1.tempFiles - 1 })
    | _ :: _ :: _ =>
        (.rejected 500, { st1 with tempFiles := st1.tempFiles - 1 })

/-- One `rq` worker step: pop the head of the queue and execute the
pipeline job (`process_document_job`), whose outcome is supplied by
`pipelineOf` as a function of the target document's state.  Success moves
the job to `finished`; an exception moves it to `failed` — `rq` performs
no retry for a job enqueued without a retry policy — and the pipeline's
handler has already persisted the document's `processing_error`.  Nothing
is ever appended to the queue by a worker step. -/
def worker_step (st : SystemState)
    (pipelineOf : DocState → Except (List Char) Unit × DocState) : SystemState :=
  match st.queue with
  | [] => st
  | jid :: rest =>
      match st.jobs.find? (fun j => j.id == jid) with
      | none => { st with queue := rest }
      | some job =>
          match st.docs.find? (fun d => d.1.id == job.document_id) with
          | none =>
              { st with
                queue := rest
                jobs := st.jobs.map (fun j => if j.id == jid then { j with status := "failed" } else j) }
          | some dpair =>
              let r := pipelineOf { doc := dpair.1, chunks := dpair.2 }
              let newStatus := match r.1 with | .ok _ => "finished" | .error _ => "failed"
              { st with
                queue := rest
                jobs := st.jobs.map (fun j => if j.id == jid then { j with status := newStatus } else j)
                docs := st.docs.map (fun d =>
                  if d.1.id == job.document_id then (r.2.doc, r.2.chunks) else d) }

/-! ## Embedding cache — `app/services/embeddings.py` -/

/-- The process-wide configuration fields relevant to embedding
generation (`app/core/config.py`). -/
structure EmbeddingSettings where
  EMBEDDING_MODEL : String
  EMBEDDING_DIMENSION : Nat
  REDIS_URL : String
deriving DecidableEq, Repr

/-- Model of `_create_cache_key(text, prefix="emb")`:
`f"{prefix}:{sha256(text)[:16]}"`, where `sha256` abstracts
`hashlib.sha256(text.encode()).hexdigest()`. -/
def _create_cache_key (sha256hex : List Char → List Char)
    (text : List Char) (pfx : List Char := "emb".toList) : List Char :=
  pfx ++ (':' :: (sha256hex text).take 16)

/-- The key under which `_get_cached_embedding` / `_cache_embedding`
read and write a text's vector when the process runs with settings `s`:
the body of `_create_cache_key` mentions no setting, so `s` is unused. -/
def embeddingCacheKey (_s : EmbeddingSettings)
    (sha256hex : List Char → List Char) (text : List Char) : List Char :=
  _create_cache_key sha256hex text

/-- Model of `_get_cached_embedding(text)` against a Redis store modelled as an
association list from keys to vectors. -/
def _get_cached_embedding (s : EmbeddingSettings)
    (sha256hex : List Char → List Char)
    (store : List (List Char × List ℚ)) (text : List Char) :
    Option (List ℚ) :=
  (store.find? (fun e => e.1 == embeddingCacheKey s sha256hex text)).map (fun e => e.2)

/-! ## Similarity Search — `app/api/endpoints/search.py` and
`find_similar_chunks` in `app/services/embeddings.py`.

All vectors are unit-normalised by the model so cosine similarity is a
dot product; the pgvector expression
`1 - (dc.embedding <=> cast(:q as vector))` is that same cosine
similarity.  `ORDER BY ... DESC` / `list.sort(reverse=True)` are modelled
by a stable insertion sort on the score (Python's `sorted` is stable). -/

/-- Dot product (`np.dot`). -/
def dotQ (v w : List ℚ) : ℚ := (List.zipWith (fun a b => a * b) v w).sum

/-- Descending order on `(index-or-id, score)` pairs. -/
def simGE (a b : Nat × ℚ) : Prop := b.2 ≤ a.2

instance : DecidableRel simGE := fun a b => inferInstanceAs (Decidable (b.2 ≤ a.2))

instance : IsTotal (Nat × ℚ) simGE := ⟨fun a b => le_total b.2 a.2⟩

instance : IsTrans (Nat × ℚ) simGE := ⟨fun _ _ _ h1 h2 => le_trans h2 h1⟩

/-- Model of `find_similar_chunks(query_embedding, chunk_embeddings, top_k,
threshold)`: empty input short-circuits to `[]`; otherwise keep the
`(index, similarity)` pairs with `similarity >= threshold` (`np.where`
returns them in index order), short-circuit to `[]` when none qualify,
sort by similarity descending and truncate to `top_k`. -/
def find_similar_chunks (query_embedding : List ℚ)
    (chunk_embeddings : List (List ℚ)) (top_k : Nat) (threshold : ℚ) :
    List (Nat × ℚ) :=
  if chunk_embeddings.isEmpty then []
  else
    let similarities := chunk_embeddings.map (fun e => dotQ e query_embedding)
    let valid := similarities.enum.filter (fun p => decide (threshold ≤ p.2))
    if valid.isEmpty then []
    else (List.insertionSort simGE valid).take top_k

/-- A row of the `document_chunks ⋈ documents` join that the search SQL
ranges over. -/
structure SearchRow where
  chunk_id : Nat
  document_id : Nat
  case_id : Nat
  text : List Char
  chunk_index : Nat
  embedding : Option (List ℚ)
deriving DecidableEq, Repr

/-- The similarity the SQL computes for a row
(`1 - (dc.embedding <=> :query_embedding)`); rows without an embedding
are excluded before it is used. -/
def rowSimilarity (query_embedding : List ℚ) (r : SearchRow) : ℚ :=
  match r.embedding with
  | some e => dotQ e query_embedding
  | none => 0

/-- The `semantic_search` endpoint's query: keep in-scope rows with a
vector whose similarity strictly exceeds the threshold, order by
similarity descending, `LIMIT :limit`; return `(chunk_id, similarity)`. -/
def semantic_search (query_embedding : List ℚ) (rows : List SearchRow)
    (case_scope : Option Nat) (lim : Nat) (threshold : ℚ) :
    List (Nat × ℚ) :=
  let inScope := rows.filter (fun r =>
    (match case_scope with | some c => r.case_id == c | none => true)
      && r.embedding.isSome
      && decide (threshold < rowSimilarity query_embedding r))
  (List.insertionSort simGE
    (inScope.map (fun r => (r.chunk_id, rowSimilarity query_embedding r)))).take lim

/-! ### Hybrid search — `hybrid_search` in `search.py` -/

/-- A semantic candidate as `hybrid_search` receives it from
`semantic_search` (chunk id and similarity score). -/
structure SemResult where
  chunk_id : Nat
  similarity_score : ℚ
deriving DecidableEq, Repr

/-- A keyword candidate row with its `ts_rank` relevance. -/
structure KwRow where
  chunk_id : Nat
  relevance : ℚ
deriving DecidableEq, Repr

/-- Model of `max([row.relevance for row in keyword_rows], default=1.0)`. -/
def maxRelevance (rows : List KwRow) : ℚ :=
  match rows.map (fun r => r.relevance) with
  | [] => 1
  | x :: xs => xs.foldl max x

/-- Model of `row.relevance / max_relevance if max_relevance > 0 else 0`. -/
def normalizedRelevance (maxRel rel : ℚ) : ℚ :=
  if 0 < maxRel then rel / maxRel else 0

/-- One iteration of the keyword loop of `hybrid_search` over the
insertion-ordered `combined_scores` dictionary: an id already present
gets `normalized_relevance * keyword_weight` added to its score, a new
id is appended with that score. -/
def kwStep (maxRel keyword_weight : ℚ) (acc : List (Nat × ℚ)) (row : KwRow) :
    List (Nat × ℚ) :=
  let nr := normalizedRelevance maxRel row.relevance
  if acc.any (fun p => p.1 == row.chunk_id) then
    acc.map (fun p => if p.1 == row.chunk_id then (p.1, p.2 + nr * keyword_weight) else p)
  else
    acc ++ [(row.chunk_id, nr * keyword_weight)]

/-- The `combined_scores` dictionary of `hybrid_search` in insertion
order: semantic results enter first with `similarity * semantic_weight`,
then the keyword rows are folded in. -/
def combined_scores (semantic_results : List SemResult)
    (keyword_rows : List KwRow) (semantic_weight keyword_weight : ℚ) :
    List (Nat × ℚ) :=
  keyword_rows.foldl (kwStep (maxRelevance keyword_rows) keyword_weight)
    (semantic_results.map (fun r => (r.chunk_id, r.similarity_score * semantic_weight)))

/-- Model of `hybrid_search`'s final ranking: the combined scores sorted
descending (stable) and truncated to `limit`. -/
def hybrid_search (semantic_results : List SemResult)
    (keyword_rows : List KwRow) (semantic_weight keyword_weight : ℚ)
    (lim : Nat) : List (Nat × ℚ) :=
  (List.insertionSort simGE
    (combined_scores semantic_results keyword_rows semantic_weight keyword_weight)).take lim

/-- The specification's formula for the same ranking, written
independently of the dictionary fold: every candidate — the semantic
results first, then the keyword-only rows — is scored
`semantic_weight * similarity + keyword_weight * normalized_relevance`,
with similarity 0 for keyword-only candidates and relevance 0 for
semantic-only candidates. -/
def hybridSpecScores (semantic_results : List SemResult)
    (keyword_rows : List KwRow) (semantic_weight keyword_weight : ℚ) :
    List (Nat × ℚ) :=
  let maxRel := maxRelevance keyword_rows
  let relOf := fun id => match keyword_rows.find? (fun r => r.chunk_id == id) with
    | some r => r.relevance
    | none => 0
  (semantic_results.map (fun r =>
      (r.chunk_id,
        semantic_weight * r.similarity_score
          + keyword_weight * normalizedRelevance maxRel (relOf r.chunk_id))))
  ++ ((keyword_rows.filter (fun row =>
        !(semantic_results.any (fun r => r.chunk_id == row.chunk_id)))).map
      (fun row =>
        (row.chunk_id,
          semantic_weight * 0
            + keyword_weight * normalizedRelevance maxRel row.relevance)))

/-- The score contribution the keyword loop adds for a chunk id: the
weighted normalized relevance of its keyword row, or zero when the id
has no keyword row. -/
def kwAddition (maxRel keyword_weight : ℚ) (rows : List KwRow) (id : Nat) : ℚ :=
  match rows.find? (fun r => r.chunk_id == id) with
  | some r => normalizedRelevance maxRel r.relevance * keyword_weight
  | none => 0

/-! ## Derived predicates and recursion characterisations -/

/-- The chunk list `chunk_document` builds before the minimum-size
filter runs (the enumeration already fixed `chunk_index`). -/
def chunk_document_prefilter (ext : ChunkingExternals) (text : List Char)
    (chunk_size chunk_overlap min_chunk_size : Nat)
    (use_semantic_chunking : Bool) : List ChunkData :=
  if text.isEmpty || (pyStrip text).length < 50 then []
  else
    let cleaned := ext.cleanText text
    if use_semantic_chunking then
      semantic_chunk_document ext cleaned chunk_size chunk_overlap min_chunk_size
    else
      token_chunk_document ext cleaned chunk_size chunk_overlap min_chunk_size

/-- Uniqueness of `(case_id, file_hash)` across document rows. -/
def UniqueCaseHash (docs : List (DocumentRow × List ChunkRec)) : Prop :=
  docs.Pairwise (fun a b => ¬(a.1.case_id = b.1.case_id ∧ a.1.file_hash = b.1.file_hash))

/-- A PDF page counts as failed for `ocr_pdf_enhanced`'s bookkeeping when
tesseract raised or returned blank text. -/
def pageFailed : PageOcr → Bool
  | .ok t _ => (pyStrip t).isEmpty
  | .err _ => true

/-- The surviving page blocks (marker + text) of the OCR loop, starting
the 1-based page numbering after offset `n`. -/
def okTextPieces : Nat → List PageOcr → List (List Char)
  | _, [] => []
  | n, .ok t _ :: rest =>
      if (pyStrip t).isEmpty then okTextPieces (n + 1) rest
      else (pageMarker (n + 1) ++ t) :: okTextPieces (n + 1) rest
  | n, .err _ :: rest => okTextPieces (n + 1) rest

/-- The 1-based numbers of the failed pages recorded by the OCR loop
(`failed_pages`), with the numbering offset by `n`. -/
def failedPagesFrom : Nat → List PageOcr → List Nat
  | _, [] => []
  | n, .ok t _ :: rest =>
      if (pyStrip t).isEmpty then (n + 1) :: failedPagesFrom (n + 1) rest
      else failedPagesFrom (n + 1) rest
  | n, .err _ :: rest => (n + 1) :: failedPagesFrom (n + 1) rest

/-- Some page of the stored PDF yields non-blank text: either a page of
the text layer, or (on the OCR path) a page whose OCR call succeeded with
non-blank output. -/
def extraction_yields_page_text (direct : Option (List (List Char)))
    (ocr : Option (List PageOcr)) : Prop :=
  (∃ ps, direct = some ps ∧ ∃ t ∈ ps, ¬(pyStrip t).isEmpty = true) ∨
  (∃ qs, ocr = some qs ∧ ∃ p ∈ qs, ∃ t conf, p = PageOcr.ok t conf ∧ ¬(pyStrip t).isEmpty = true)

/-! ## Concrete fixtures used by witnesses and counterexamples -/

/-- Chunking externals for concrete runs: a splitter that returns three
pieces — two of 60 characters around one of 10 — under a
one-token-per-character tokenizer. -/
def cxExt : ChunkingExternals :=
  { splitSemantic := fun _ _ _ =>
      [List.replicate 60 'a', List.replicate 10 'b', List.replicate 60 'c']
    splitToken := fun _ _ t => [t]
    countTokens := List.length
    cleanText := id }

/-- Chunking externals whose splitter returns the whole text as the only
piece. -/
def idExt : ChunkingExternals :=
  { splitSemantic := fun _ _ t => [t]
    splitToken := fun _ _ t => [t]
    countTokens := List.length
    cleanText := id }

/-- A 60-character input text. -/
def cxText : List Char := List.replicate 60 'a'

/-- A blank document row fixture. -/
def cxDoc : DocumentRow :=
  { id := 7, case_id := 1, filename := "a.pdf", file_hash := 'h' :: []
    file_size := 5, document_type := none, ocr_completed := false
    ocr_text := none, page_count := none, processed := false
    processing_error := none, chunks_generated := 0 }

/-- A document row that already carries both completion flags and OCR
text. -/
def cxDocDone : DocumentRow :=
  { cxDoc with
    ocr_completed := true
    processed := true
    ocr_text := some cxText }

/-- A one-chunk fixture without embedding. -/
def cxChunk : ChunkRec :=
  { chunk_index := 0, text := 'a' :: 'b' :: 'c' :: [], tokens := 3, embedding := none }

/-- System state fixture: one case, one document, one queued job. -/
def cxState : SystemState :=
  { docs := [(cxDoc, [])], cases := [1]
    jobs := [{ id := 3, document_id := 7, status := "queued" }]
    queue := [3], tempFiles := 0, nextDocId := 8, nextJobId := 4 }

/-- A pipeline run that fails in its OCR stage (empty text file). -/
def cxFailingPipeline (ds : DocState) : Except (List Char) Unit × DocState :=
  let r := process_document_pipeline idExt ds (.textFile []) []
  (r.1, r.2.1)

/-- A hash function fixture for concrete uploads. -/
def cxSha (bytes : List Nat) : List Char :=
  bytes.map (fun n => Char.ofNat (n % 26 + 97))

/-! ## Shared lemmas -/

theorem enum_create_map_index (ext : ChunkingExternals) (l : List (List Char)) :
    List.map (ChunkData.chunk_index ∘ fun p : Nat × List Char =>
        create_chunk_metadata ext p.2 p.1) l.enum
      = List.range l.length := by
  have h : (ChunkData.chunk_index ∘ fun p : Nat × List Char =>
      create_chunk_metadata ext p.2 p.1) = Prod.fst := rfl
  rw [h, List.enum_map_fst]

theorem prefilter_map_index (ext : ChunkingExternals) (text : List Char)
    (cs co mcs : Nat) (sem : Bool) :
    (chunk_document_prefilter ext text cs co mcs sem).map ChunkData.chunk_index
      = List.range (chunk_document_prefilter ext text cs co mcs sem).length := by
  unfold chunk_document_prefilter
  cases sem <;>
    by_cases hg : (text.isEmpty || decide ((pyStrip text).length < 50)) = true <;>
      simp [hg, semantic_chunk_document, token_chunk_document,
        enum_create_map_index, List.length_map, List.enum_length]

/-! ## C9 -/

/-- C9: the embedding cache key is `"emb:"` plus the first 16 hex
characters of the SHA-256 of the text alone; two processes whose
settings differ only in `EMBEDDING_MODEL` or `EMBEDDING_DIMENSION`
compute the identical key for the same text, so cache lookups cannot
distinguish them. -/
theorem C9_cache_key_ignores_model_and_dimension
    (sha256hex : List Char → List Char) (s1 s2 : EmbeddingSettings)
    (text : List Char) (_hsame : s1.REDIS_URL = s2.REDIS_URL) :
    embeddingCacheKey s1 sha256hex text = embeddingCacheKey s2 sha256hex text ∧
    ∀ store, _get_cached_embedding s1 sha256hex store text
        = _get_cached_embedding s2 sha256hex store text :=
  ⟨rfl, fun _ => rfl⟩

theorem C9_cache_key_ignores_model_and_dimension_witness :
    ({ EMBEDDING_MODEL := "sentence-transformers/all-MiniLM-L6-v2"
       EMBEDDING_DIMENSION := 384
       REDIS_URL := "redis://localhost:6379/0" } : EmbeddingSettings).REDIS_URL
      = ({ EMBEDDING_MODEL := "nomic-embed-text-v1"
           EMBEDDING_DIMENSION := 768
           REDIS_URL := "redis://localhost:6379/0" } : EmbeddingSettings).REDIS_URL ∧
    embeddingCacheKey
        { EMBEDDING_MODEL := "sentence-transformers/all-MiniLM-L6-v2"
          EMBEDDING_DIMENSION := 384
          REDIS_URL := "redis://localhost:6379/0" } (fun t => t) ('x' :: [])
      = embeddingCacheKey
          { EMBEDDING_MODEL := "nomic-embed-text-v1"
            EMBEDDING_DIMENSION := 768
            REDIS_URL := "redis://localhost:6379/0" } (fun t => t) ('x' :: []) :=
  ⟨rfl, (C9_cache_key_ignores_model_and_dimension (fun t => t) _ _ ('x' :: []) rfl).1⟩

/-! ## C10 -/

/-- C10: any text whose stripped length is below 50 — even non-empty
text — makes `chunk_document` return `[]` without raising, for every
choice of chunk-size, overlap and minimum-size parameters; consequently
`process_document_chunking_task` raises (`TaskError`, a retryable stage
failure) on a document holding such extracted text. -/
theorem C10_short_text_empty_chunks_task_fails
    (ext : ChunkingExternals) (text : List Char) (cs co mcs : Nat)
    (sem : Bool) (doc : DocumentRow)
    (hshort : (pyStrip text).length < 50) (hdoc : doc.ocr_text = some text) :
    chunk_document ext text cs co mcs sem = [] ∧
    (process_document_chunking_task ext doc).isOk = false := by
  have hgate : (text.isEmpty || decide ((pyStrip text).length < 50)) = true := by
    simp [hshort]
  refine ⟨by simp [chunk_document, hgate], ?_⟩
  unfold process_document_chunking_task
  rw [hdoc]
  by_cases he : text.isEmpty
  · simp [he, Except.isOk, Except.toBool]
  · have h50 : smart_chunk_document ext text doc.document_type = [] := by
      unfold smart_chunk_document chunk_document
      simp [hgate]
    simp [he, h50, Except.isOk, Except.toBool]

theorem C10_short_text_empty_chunks_task_fails_witness :
    (pyStrip ("short text here".toList)).length < 50 ∧
    "short text here".toList ≠ [] ∧
    chunk_document idExt ("short text here".toList) 1000 200 50 true = [] ∧
    (process_document_chunking_task idExt
        { cxDoc with ocr_text := some ("short text here".toList) }).isOk = false := by
  have h := C10_short_text_empty_chunks_task_fails idExt ("short text here".toList)
    1000 200 50 true { cxDoc with ocr_text := some ("short text here".toList) }
    (by decide) rfl
  exact ⟨by decide, by decide, h.1, h.2⟩

/-! ## C5 -/

/-- C5: before any vector is durably persisted the stage verifies that
the number of returned vectors equals the number of chunks (an explicit
check preceding every chunk update), and the `Vector(384)` column type
enforces the configured dimension of every written vector at the single
commit; either mismatch yields a retryable error whose result carries no
chunk updates (the count check precedes the loop and a failed commit
rolls the transaction back, so nothing is partially persisted), and when
both conditions hold every chunk receives its vector. -/
theorem C5_count_and_dimension_enforced
    (chunks : List ChunkRec) (embeddings : List (List ℚ))
    (hne : chunks ≠ []) :
    ((embeddings.length ≠ chunks.length ∨
        ∃ e ∈ embeddings, e.length ≠ EMBEDDING_DIMENSION) →
      (process_document_embeddings_task chunks embeddings).isOk = false) ∧
    (embeddings.length = chunks.length →
      (∀ e ∈ embeddings, e.length = EMBEDDING_DIMENSION) →
      process_document_embeddings_task chunks embeddings
        = .ok (List.zipWith (fun c e => { c with embedding := some e })
            chunks embeddings)) := by
  have hmpty : chunks.isEmpty = false := by
    cases chunks with
    | nil => exact absurd rfl hne
    | cons a as => rfl
  constructor
  · intro hbad
    unfold process_document_embeddings_task
    simp only [hmpty, Bool.false_eq_true, if_false]
    rcases hbad with hcount | ⟨e, he, hd⟩
    · rw [if_pos hcount]
      rfl
    · by_cases hcount : embeddings.length ≠ chunks.length
      · rw [if_pos hcount]
        rfl
      · rw [if_neg hcount]
        have hall : embeddings.all (fun e => e.length == EMBEDDING_DIMENSION) = false := by
          cases hb : embeddings.all (fun e => e.length == EMBEDDING_DIMENSION)
          · rfl
          · exact absurd (by simpa using List.all_eq_true.mp hb e he) hd
        simp only [hall, Bool.false_eq_true, if_false]
        rfl
  · intro hcount hdim
    unfold process_document_embeddings_task
    simp only [hmpty, Bool.false_eq_true, if_false]
    rw [if_neg (fun h => h hcount)]
    have hall : embeddings.all (fun e => e.length == EMBEDDING_DIMENSION) = true :=
      List.all_eq_true.mpr (fun e he => by simpa using hdim e he)
    rw [if_pos hall]

theorem C5_count_and_dimension_enforced_witness :
    (process_document_embeddings_task (cxChunk :: [])
        (((1 : ℚ) :: (2 : ℚ) :: []) :: [])).isOk = false ∧
    process_document_embeddings_task (cxChunk :: [])
        ((List.replicate 384 (0 : ℚ)) :: [])
      = .ok ({ cxChunk with embedding := some (List.replicate 384 (0 : ℚ)) } :: []) := by
  have h1 := C5_count_and_dimension_enforced (cxChunk :: [])
    (((1 : ℚ) :: (2 : ℚ) :: []) :: []) (by simp)
  have h2 := C5_count_and_dimension_enforced (cxChunk :: [])
    ((List.replicate 384 (0 : ℚ)) :: []) (by simp)
  refine ⟨h1.1 (Or.inr ⟨_, List.mem_singleton_self _, by decide⟩), ?_⟩
  exact h2.2 (by decide) (by
    intro e he
    rw [List.mem_singleton.mp he, List.length_replicate]
    rfl)

/-! ## C4 -/

theorem ocr_task_ok_sets_flag (doc : DocumentRow) (input : FileInput)
    (d1 : DocumentRow) (meta : OcrMeta)
    (h : process_document_ocr_task doc input = .ok (d1, meta)) :
    d1.ocr_completed = true := by
  unfold process_document_ocr_task at h
  split at h
  · exact absurd h (by simp)
  · split at h
    · exact absurd h (by simp)
    · have hp := Except.ok.inj h
      have hd1 := congrArg Prod.fst hp
      simp only at hd1
      rw [← hd1]

theorem chunking_task_ok_sets_flag (ext : ChunkingExternals)
    (doc : DocumentRow) (d2 : DocumentRow) (cs : List ChunkRec)
    (h : process_document_chunking_task ext doc = .ok (d2, cs)) :
    d2.processed = true := by
  unfold process_document_chunking_task at h
  split at h
  · exact absurd h (by simp)
  · split at h
    · exact absurd h (by simp)
    · dsimp only at h
      split at h
      · exact absurd h (by simp)
      · have hp := Except.ok.inj h
        have hd2 := congrArg Prod.fst hp
        simp only at hd2
        rw [← hd2]

/-- C4 counterexample: a document whose persisted `ocr_completed` flag is
already set still has its OCR stage executed (it is the head of the
executed-stage trace) when the pipeline runs again for it, so a retried
run does not skip the completed stage. -/
theorem C4_counterexample :
    cxDocDone.ocr_completed = true ∧ cxDocDone.processed = true ∧
    "ocr" ∈ (process_document_pipeline idExt { doc := cxDocDone, chunks := [] }
        (.textFile cxText) []).2.2 ∧
    (process_document_pipeline idExt { doc := cxDocDone, chunks := [] }
        (.textFile cxText) []).2.2.head? = some "ocr" := by
  refine ⟨rfl, rfl, ?_, ?_⟩ <;> decide

/-- C4 amended: each stage does persist its completion flag on the
document (`ocr_completed` after extraction, `processed` after chunking),
but a retried pipeline run consults neither flag: the OCR stage is always
the first entry of the executed-stage trace — even when `ocr_completed`
is already set — and the chunking stage is entered whenever OCR
succeeded — even when `processed` is already set. -/
theorem C4_amended_flags_persisted_but_never_skip
    (ext : ChunkingExternals) (st : DocState) (input : FileInput)
    (embeddings : List (List ℚ)) :
    (process_document_pipeline ext st input embeddings).2.2.head? = some "ocr" ∧
    (st.doc.ocr_completed = true →
      (process_document_pipeline ext st input embeddings).2.2.head? = some "ocr") ∧
    (∀ d1 meta, process_document_ocr_task st.doc input = .ok (d1, meta) →
      d1.ocr_completed = true ∧
      "chunking" ∈ (process_document_pipeline ext st input embeddings).2.2) ∧
    (∀ d2 cs2, process_document_chunking_task ext st.doc = .ok (d2, cs2) →
      d2.processed = true) := by
  have htrace : (process_document_pipeline ext st input embeddings).2.2.head? = some "ocr" := by
    unfold process_document_pipeline
    cases hocr : process_document_ocr_task st.doc input with
    | error e => rfl
    | ok pr =>
        obtain ⟨d1, m1⟩ := pr
        dsimp only
        cases hch : process_document_chunking_task ext d1 with
        | error e => rfl
        | ok pr2 =>
            obtain ⟨d2, cs⟩ := pr2
            dsimp only
            cases hem : process_document_embeddings_task cs embeddings with
            | error e => rfl
            | ok cs2 => rfl
  refine ⟨htrace, fun _ => htrace, ?_, ?_⟩
  · intro d1 meta hok
    refine ⟨ocr_task_ok_sets_flag st.doc input d1 meta hok, ?_⟩
    unfold process_document_pipeline
    rw [hok]
    dsimp only
    cases hch : process_document_chunking_task ext d1 with
    | error e => simp
    | ok pr2 =>
        obtain ⟨d2, cs⟩ := pr2
        dsimp only
        cases hem : process_document_embeddings_task cs embeddings with
        | error e => simp
        | ok cs2 => simp
  · intro d2 cs2 hok
    exact chunking_task_ok_sets_flag ext st.doc d2 cs2 hok

theorem C4_amended_flags_persisted_but_never_skip_witness :
    ({ doc := cxDocDone, chunks := [] } : DocState).doc.ocr_completed = true ∧
    (process_document_pipeline idExt { doc := cxDocDone, chunks := [] }
        (.textFile cxText) []).2.2.head? = some "ocr" ∧
    "chunking" ∈ (process_document_pipeline idExt { doc := cxDocDone, chunks := [] }
        (.textFile cxText) []).2.2 := by
  have h := C4_amended_flags_persisted_but_never_skip idExt
    { doc := cxDocDone, chunks := [] } (.textFile cxText) []
  exact ⟨rfl, h.2.1 rfl, (h.2.2.1 _ _ rfl).2⟩

/-! ## C3 -/

/-- C3 counterexample: one job, one document, a pipeline whose OCR stage
fails.  After the very first failure the job's status is `failed`, the
queue is empty (the job was not re-queued), no new job exists, the
document's error field is set, and a further worker step changes
nothing — whereas the claim (with this repository's declared default
`max_attempts = 3`) requires the first failure to re-queue the job. -/
theorem C3_counterexample :
    (worker_step cxState cxFailingPipeline).queue = [] ∧
    (worker_step cxState cxFailingPipeline).jobs
      = ({ id := 3, document_id := 7, status := "failed" } : RqJob) :: [] ∧
    (worker_step cxState cxFailingPipeline).jobs.length = cxState.jobs.length ∧
    ((worker_step cxState cxFailingPipeline).docs.map (fun d => d.1.processing_error))
      = (some ("Document processing failed: OCR processing failed: OCR produced no usable text".toList)) :: [] ∧
    worker_step (worker_step cxState cxFailingPipeline) cxFailingPipeline
      = worker_step cxState cxFailingPipeline := by
  refine ⟨?_, ?_, ?_, ?_, ?_⟩ <;> rfl

/-- C3 amended: there is no attempt counter — on the first stage failure
the job's status becomes `failed`, the head of the queue is consumed and
nothing is re-enqueued (a worker step never lengthens the queue nor adds
a job), and the pipeline's handler has set the document's
`processing_error`; the behaviour matches the claim only in the
degenerate reading `max_attempts = 1`. -/
theorem C3_amended_first_failure_is_permanent
    (st : SystemState) (pipelineOf : DocState → Except (List Char) Unit × DocState)
    (jid : Nat) (rest : List Nat) (job : RqJob)
    (dpair : DocumentRow × List ChunkRec)
    (hq : st.queue = jid :: rest)
    (hj : st.jobs.find? (fun j => j.id == jid) = some job)
    (hd : st.docs.find? (fun d => d.1.id == job.document_id) = some dpair)
    (e : List Char)
    (hfail : (pipelineOf { doc := dpair.1, chunks := dpair.2 }).1 = .error e) :
    (worker_step st pipelineOf).queue = rest ∧
    (∀ j ∈ (worker_step st pipelineOf).jobs, j.id = jid → j.status = "failed") ∧
    (worker_step st pipelineOf).jobs.length = st.jobs.length ∧
    (∀ (s : SystemState) po, ((worker_step s po).queue).length ≤ s.queue.length ∧
        ((worker_step s po).jobs).length = s.jobs.length) ∧
    (∀ (ext : ChunkingExternals) (ds : DocState) (input : FileInput)
        (emb : List (List ℚ)) (e2 : List Char),
        (process_document_pipeline ext ds input emb).1 = .error e2 →
        (process_document_pipeline ext ds input emb).2.1.doc.processing_error
          = some ("Document processing failed: ".toList ++ e2)) := by
  have hstep : worker_step st pipelineOf =
      { st with
        queue := rest
        jobs := st.jobs.map (fun j => if j.id == jid then { j with status := "failed" } else j)
        docs := st.docs.map (fun d =>
          if d.1.id == job.document_id then
            ((pipelineOf { doc := dpair.1, chunks := dpair.2 }).2.doc,
             (pipelineOf { doc := dpair.1, chunks := dpair.2 }).2.chunks) else d) } := by
    unfold worker_step
    rw [hq]
    dsimp only
    rw [hj]
    dsimp only
    rw [hd]
    dsimp only
    rw [hfail]
  refine ⟨by rw [hstep], ?_, by rw [hstep]; exact List.length_map _ _, ?_, ?_⟩
  · intro j hj2 hjid
    rw [hstep] at hj2
    obtain ⟨orig, _horig, hfo⟩ := List.mem_map.mp hj2
    by_cases hb : (orig.id == jid) = true
    · rw [if_pos hb] at hfo; rw [← hfo]
    · rw [if_neg hb] at hfo
      rw [← hfo] at hjid
      exact absurd (by simp [hjid]) hb
  · intro s po
    unfold worker_step
    cases hsq : s.queue with
    | nil => simp [hsq]
    | cons j0 r0 =>
        dsimp only
        cases s.jobs.find? (fun j => j.id == j0) with
        | none => simp
        | some job0 =>
            dsimp only
            cases s.docs.find? (fun d => d.1.id == job0.document_id) with
            | none => simp
            | some dp0 =>
                dsimp only
                cases (po { doc := dp0.1, chunks := dp0.2 }).1 <;> simp
  · intro ext ds input emb e2 hfail2
    unfold process_document_pipeline at hfail2 ⊢
    cases hocr : process_document_ocr_task ds.doc input with
    | error eo =>
        rw [hocr] at hfail2
        dsimp only at hfail2 ⊢
        have he : eo = e2 := Except.error.inj hfail2
        rw [he]
    | ok pr =>
        obtain ⟨d1, m1⟩ := pr
        rw [hocr] at hfail2
        dsimp only at hfail2 ⊢
        cases hch : process_document_chunking_task ext d1 with
        | error ec =>
            rw [hch] at hfail2
            dsimp only at hfail2 ⊢
            have he : ec = e2 := Except.error.inj hfail2
            rw [he]
        | ok pr2 =>
            obtain ⟨d2, cs⟩ := pr2
            rw [hch] at hfail2
            dsimp only at hfail2 ⊢
            cases hem : process_document_embeddings_task cs emb with
            | error ee =>
                rw [hem] at hfail2
                dsimp only at hfail2 ⊢
                have he : ee = e2 := Except.error.inj hfail2
                rw [he]
            | ok cs2 =>
                rw [hem] at hfail2
                dsimp only at hfail2
                exact absurd hfail2 (by simp)

theorem C3_amended_first_failure_is_permanent_witness :
    (worker_step cxState cxFailingPipeline).queue = [] ∧
    (worker_step cxState cxFailingPipeline).jobs.length = cxState.jobs.length := by
  have h := C3_amended_first_failure_is_permanent cxState cxFailingPipeline 3 []
    { id := 3, document_id := 7, status := "queued" } (cxDoc, []) rfl rfl rfl
    ("OCR processing failed: OCR produced no usable text".toList) rfl
  exact ⟨h.1, h.2.2.1⟩

/-! ## C1 -/

/-- C1 counterexample: the splitter yields pieces of 60, 10 and 60
tokens; with the minimum-size floor 50 the middle piece is dropped
*after* `enumerate` has fixed the indices, so the surviving indices are
`[0, 2]` — not the contiguous sequence `0..N-1` the claim asserts. -/
theorem C1_counterexample :
    (chunk_document cxExt cxText 1000 200 50 true).map ChunkData.chunk_index
      = 0 :: 2 :: [] ∧
    (chunk_document cxExt cxText 1000 200 50 true).length = 2 ∧
    (chunk_document cxExt cxText 1000 200 50 true).map ChunkData.chunk_index
      ≠ List.range (chunk_document cxExt cxText 1000 200 50 true).length := by
  refine ⟨?_, ?_, ?_⟩ <;> decide

/-- C1 amended: `chunk_document` assigns `chunk_index` by enumeration
*before* the minimum-size filter, so the surviving indices are strictly
increasing (no duplicates, order preserved) but need not be contiguous;
they form exactly `0..N-1` when no chunk is dropped by the filter. -/
theorem C1_amended_indices_increasing_not_contiguous
    (ext : ChunkingExternals) (text : List Char) (cs co mcs : Nat)
    (sem : Bool) :
    chunk_document ext text cs co mcs sem
      = (chunk_document_prefilter ext text cs co mcs sem).filter
          (fun c => decide (mcs ≤ c.token_count)) ∧
    ((chunk_document ext text cs co mcs sem).map ChunkData.chunk_index).Pairwise (· < ·) ∧
    ((∀ c ∈ chunk_document_prefilter ext text cs co mcs sem, mcs ≤ c.token_count) →
      (chunk_document ext text cs co mcs sem).map ChunkData.chunk_index
        = List.range (chunk_document ext text cs co mcs sem).length) := by
  have h1 : chunk_document ext text cs co mcs sem
      = (chunk_document_prefilter ext text cs co mcs sem).filter
          (fun c => decide (mcs ≤ c.token_count)) := by
    unfold chunk_document chunk_document_prefilter
    cases sem <;>
      by_cases hg : (text.isEmpty || decide ((pyStrip text).length < 50)) = true <;>
        simp [hg]
  refine ⟨h1, ?_, ?_⟩
  · rw [h1]
    have hsub :
        List.Sublist
          (((chunk_document_prefilter ext text cs co mcs sem).filter
              (fun c => decide (mcs ≤ c.token_count))).map ChunkData.chunk_index)
          ((chunk_document_prefilter ext text cs co mcs sem).map ChunkData.chunk_index) :=
      (List.filter_sublist _).map _
    rw [prefilter_map_index] at hsub
    exact List.Pairwise.sublist hsub (List.pairwise_lt_range _)
  · intro hall
    have hfil : (chunk_document_prefilter ext text cs co mcs sem).filter
        (fun c => decide (mcs ≤ c.token_count))
          = chunk_document_prefilter ext text cs co mcs sem := by
      rw [List.filter_eq_self]
      intro a ha
      simpa using hall a ha
    rw [h1, hfil]
    exact prefilter_map_index ext text cs co mcs sem

theorem C1_amended_indices_increasing_not_contiguous_witness :
    (∀ c ∈ chunk_document_prefilter idExt cxText 1000 200 50 true, 50 ≤ c.token_count) ∧
    ((chunk_document idExt cxText 1000 200 50 true).map ChunkData.chunk_index).Pairwise (· < ·) ∧
    (chunk_document idExt cxText 1000 200 50 true).map ChunkData.chunk_index
      = List.range (chunk_document idExt cxText 1000 200 50 true).length := by
  have h := C1_amended_indices_increasing_not_contiguous idExt cxText 1000 200 50 true
  exact ⟨by decide, h.2.1, h.2.2 (by decide)⟩

/-! ## C2 -/

/-- C2: when a document with the uploaded bytes' hash already exists for
the case (and the upload passes the size/extension/case checks), the
endpoint answers `duplicate := true` with the existing document's id and
no job id, the temp file is gone, and the document table, job table,
queue and temp-file count are unchanged; moreover every upload preserves
uniqueness of `(case_id, file_hash)` over the document table. -/
theorem C2_duplicate_upload_creates_nothing
    (sha256 : List Nat → List Char) (st : SystemState) (case_id : Nat)
    (fileBytes : List Nat) (filename ext : String) (declaredSize : Option Nat)
    (document_type : Option String) (priority : String)
    (d : DocumentRow × List ChunkRec)
    (hsz : (match declaredSize with
            | some s => decide (MAX_FILE_SIZE < s)
            | none => false) = false)
    (hext : ALLOWED_EXTENSIONS.contains ext = true)
    (hcase : st.cases.contains case_id = true)
    (hdup : st.docs.filter
        (fun d0 => d0.1.file_hash == sha256 fileBytes && d0.1.case_id == case_id)
          = [d]) :
    ((upload_document sha256 st case_id fileBytes filename ext declaredSize
        document_type priority).1 = .success d.1.id true none ∧
     (upload_document sha256 st case_id fileBytes filename ext declaredSize
        document_type priority).2.docs = st.docs ∧
     (upload_document sha256 st case_id fileBytes filename ext declaredSize
        document_type priority).2.jobs = st.jobs ∧
     (upload_document sha256 st case_id fileBytes filename ext declaredSize
        document_type priority).2.queue = st.queue ∧
     (upload_document sha256 st case_id fileBytes filename ext declaredSize
        document_type priority).2.tempFiles = st.tempFiles) ∧
    (∀ (st0 : SystemState) (c0 : Nat) (b0 : List Nat) (f0 e0 : String)
        (s0 : Option Nat) (t0 : Option String) (p0 : String),
      UniqueCaseHash st0.docs →
      UniqueCaseHash ((upload_document sha256 st0 c0 b0 f0 e0 s0 t0 p0).2.docs)) := by
  constructor
  · have hrun : upload_document sha256 st case_id fileBytes filename ext declaredSize
        document_type priority
          = (.success d.1.id true none, { st with tempFiles := st.tempFiles + 1 - 1 }) := by
      unfold upload_document
      rw [hsz]
      simp only [Bool.false_eq_true, if_false]
      rw [hext, hcase]
      simp only [Bool.not_true, Bool.false_eq_true, if_false]
      rw [hdup]
    rw [hrun]
    refine ⟨rfl, rfl, rfl, rfl, ?_⟩
    simp
  · intro st0 c0 b0 f0 e0 s0 t0 p0 huniq
    unfold upload_document
    split
    · exact huniq
    · split
      · exact huniq
      · split
        · exact huniq
        · dsimp only
          split
          next hnil =>
            unfold enqueue_document_processing
            unfold UniqueCaseHash
            rw [List.pairwise_append]
            refine ⟨huniq, List.pairwise_singleton _ _, ?_⟩
            intro a ha b hb
            have hnp := List.filter_eq_nil_iff.mp hnil a ha
            simp only [Bool.and_eq_true, beq_iff_eq, not_and] at hnp
            have hb1 := List.mem_singleton.mp hb
            subst hb1
            intro hcon
            exact (hnp hcon.2) hcon.1
          next d0 hd0 => exact huniq
          next h1 h2 => exact huniq

theorem C2_duplicate_upload_creates_nothing_witness :
    (upload_document (fun _ => 'h' :: []) cxState 1 (1 :: 2 :: []) "a.pdf" ".pdf"
        (some 5) none "normal").1 = .success 7 true none ∧
    (upload_document (fun _ => 'h' :: []) cxState 1 (1 :: 2 :: []) "a.pdf" ".pdf"
        (some 5) none "normal").2.docs = cxState.docs ∧
    (upload_document (fun _ => 'h' :: []) cxState 1 (1 :: 2 :: []) "a.pdf" ".pdf"
        (some 5) none "normal").2.jobs = cxState.jobs ∧
    (upload_document (fun _ => 'h' :: []) cxState 1 (1 :: 2 :: []) "a.pdf" ".pdf"
        (some 5) none "normal").2.tempFiles = cxState.tempFiles ∧
    UniqueCaseHash ((upload_document (fun _ => 'h' :: []) cxState 1 (1 :: 2 :: [])
        "a.pdf" ".pdf" (some 5) none "normal").2.docs) := by
  have h := C2_duplicate_upload_creates_nothing (fun _ => 'h' :: []) cxState 1
    (1 :: 2 :: []) "a.pdf" ".pdf" (some 5) none "normal" (cxDoc, [])
    rfl (by decide) rfl rfl
  exact ⟨h.1.1, h.1.2.1, h.1.2.2.1, h.1.2.2.2.2,
    h.2 cxState 1 (1 :: 2 :: []) "a.pdf" ".pdf" (some 5) none "normal"
      (by unfold UniqueCaseHash; decide)⟩

/-! ## C7 -/

/-- C7: pure-semantic search is filter–sort–truncate.
`find_similar_chunks` returns exactly the `(index, similarity)` pairs
whose cosine similarity reaches the threshold (`>=` there), sorted in
descending order of similarity and truncated to the limit, and returns
`[]` (no error) when nothing qualifies; the `semantic_search` endpoint
returns only in-scope chunks whose similarity strictly exceeds the
threshold, sorted descending, truncated to the limit, and `[]` when
nothing qualifies. -/
theorem C7_semantic_search_filter_sort_truncate
    (q : List ℚ) (embs : List (List ℚ)) (k : Nat) (t : ℚ)
    (rows : List SearchRow) (scope : Option Nat) (lim : Nat) :
    find_similar_chunks q embs k t
      = (List.insertionSort simGE
          ((embs.map (fun e => dotQ e q)).enum.filter
            (fun p => decide (t ≤ p.2)))).take k ∧
    List.Sorted simGE (find_similar_chunks q embs k t) ∧
    (∀ p ∈ find_similar_chunks q embs k t, t ≤ p.2) ∧
    (find_similar_chunks q embs k t).length ≤ k ∧
    ((∀ e ∈ embs, dotQ e q < t) → find_similar_chunks q embs k t = []) ∧
    List.Sorted simGE (semantic_search q rows scope lim t) ∧
    (∀ p ∈ semantic_search q rows scope lim t, t < p.2) ∧
    (semantic_search q rows scope lim t).length ≤ lim ∧
    ((∀ r ∈ rows, rowSimilarity q r ≤ t) → semantic_search q rows scope lim t = []) := by
  have heq : find_similar_chunks q embs k t
      = (List.insertionSort simGE
          ((embs.map (fun e => dotQ e q)).enum.filter
            (fun p => decide (t ≤ p.2)))).take k := by
    unfold find_similar_chunks
    by_cases h0 : embs.isEmpty
    · have he : embs = [] := by simpa using h0
      subst he
      simp
    · rw [if_neg h0]
      dsimp only
      by_cases hv : ((embs.map (fun e => dotQ e q)).enum.filter
          (fun p => decide (t ≤ p.2))).isEmpty
      · rw [if_pos hv]
        have he : (embs.map (fun e => dotQ e q)).enum.filter
            (fun p => decide (t ≤ p.2)) = [] := by simpa using hv
        rw [he]
        simp
      · rw [if_neg hv]
  refine ⟨heq, ?_, ?_, ?_, ?_, ?_, ?_, ?_, ?_⟩
  · rw [heq]
    exact List.Pairwise.sublist (List.take_sublist _ _)
      (List.sorted_insertionSort simGE _)
  · intro p hp
    rw [heq] at hp
    have hp2 := List.take_subset _ _ hp
    have hp3 := (List.perm_insertionSort simGE _).subset hp2
    have hp4 := (List.mem_filter.mp hp3).2
    exact of_decide_eq_true hp4
  · rw [heq, List.length_take]
    exact min_le_left _ _
  · intro hall
    rw [heq]
    have hnil : (embs.map (fun e => dotQ e q)).enum.filter
        (fun p => decide (t ≤ p.2)) = [] := by
      rw [List.filter_eq_nil_iff]
      intro p hp
      have hmem : p.2 ∈ (embs.map (fun e => dotQ e q)).enum.map Prod.snd :=
        List.mem_map_of_mem Prod.snd hp
      rw [List.enum_map_snd] at hmem
      obtain ⟨e, he, hpe⟩ := List.mem_map.mp hmem
      have := hall e he
      rw [hpe] at this
      simp [not_le.mpr this]
    rw [hnil]
    simp
  · exact List.Pairwise.sublist (List.take_sublist _ _)
      (List.sorted_insertionSort simGE _)
  · intro p hp
    unfold semantic_search at hp
    have hp2 := List.take_subset _ _ hp
    have hp3 := (List.perm_insertionSort simGE _).subset hp2
    obtain ⟨r, hr, hpr⟩ := List.mem_map.mp hp3
    have hcond := (List.mem_filter.mp hr).2
    simp only [Bool.and_eq_true, decide_eq_true_eq] at hcond
    rw [← hpr]
    exact hcond.2
  · unfold semantic_search
    rw [List.length_take]
    exact min_le_left _ _
  · intro hall
    unfold semantic_search
    have hnil : rows.filter (fun r =>
        (match scope with | some c => r.case_id == c | none => true)
          && r.embedding.isSome
          && decide (t < rowSimilarity q r)) = [] := by
      rw [List.filter_eq_nil_iff]
      intro r hr
      have := hall r hr
      simp [not_lt.mpr this]
    rw [hnil]
    simp

theorem C7_semantic_search_filter_sort_truncate_witness :
    find_similar_chunks ([] : List ℚ) (((3 : ℚ) :: []) :: ((5 : ℚ) :: []) :: []) 5 10 = [] ∧
    List.Sorted simGE
      (find_similar_chunks ([] : List ℚ) (((3 : ℚ) :: []) :: ((5 : ℚ) :: []) :: []) 5 10) ∧
    (semantic_search ([] : List ℚ) ([] : List SearchRow) none 5 10 = []) := by
  have h := C7_semantic_search_filter_sort_truncate ([] : List ℚ)
    (((3 : ℚ) :: []) :: ((5 : ℚ) :: []) :: []) 5 10
    ([] : List SearchRow) none 5
  exact ⟨h.2.2.2.2.1 (by decide), h.2.1,
    h.2.2.2.2.2.2.2.2 (by intro r hr; exact absurd hr (List.not_mem_nil r))⟩

/-! ## C6 lemmas -/

theorem pyJoin_cons (sep x : List Char) (l : List (List Char)) :
    ∃ s, pyJoin sep (x :: l) = x ++ s := by
  cases l with
  | nil => exact ⟨[], by simp [pyJoin]⟩
  | cons y ys => exact ⟨sep ++ pyJoin sep (y :: ys), by simp [pyJoin]⟩

theorem length_dropWhile_le_self (p : Char → Bool) (l : List Char) :
    (l.dropWhile p).length ≤ l.length := by
  induction l with
  | nil => simp
  | cons a as ih =>
      by_cases h : p a
      · simp only [List.dropWhile_cons, h, if_true, List.length_cons]
        omega
      · simp [List.dropWhile_cons, h]

theorem length_dropWhile_append (p : Char → Bool) (xs ys : List Char) :
    (ys.dropWhile p).length ≤ ((xs ++ ys).dropWhile p).length := by
  induction xs with
  | nil => simp
  | cons a as ih =>
      by_cases h : p a
      · simpa [List.dropWhile_cons, h] using ih
      · simp only [List.cons_append, List.dropWhile_cons, h, if_false,
          Bool.false_eq_true, List.length_cons]
        have h1 := length_dropWhile_le_self p ys
        have h2 : ys.length ≤ (as ++ ys).length := by
          rw [List.length_append]; omega
        omega

theorem dropTrailingWS_length_ge (a : List Char) (c : Char) (b : List Char)
    (hc : pyWS c = false) :
    a.length + 1 ≤ (dropTrailingWS (a ++ c :: b)).length := by
  unfold dropTrailingWS
  rw [List.length_reverse]
  have h1 : (a ++ c :: b).reverse = b.reverse ++ c :: a.reverse := by
    simp
  rw [h1]
  have h2 := length_dropWhile_append pyWS b.reverse (c :: a.reverse)
  simp only [List.dropWhile_cons, hc, Bool.false_eq_true, if_false,
    List.length_cons, List.length_reverse] at h2
  omega

theorem pageMarker_append (n : Nat) (X : List Char) :
    pageMarker n ++ X
      = ('-' :: '-' :: '-' :: ' ' :: 'P' :: 'a' :: 'g' :: 'e' :: ' ' ::
          (Nat.toDigits 10 n ++ (' ' :: '-' :: '-' :: [])))
        ++ '-' :: ('\n' :: X) := by
  simp [pageMarker]

theorem marker_content_text_long (elems : List (List Char))
    (hne : elems ≠ [])
    (hall : ∀ e ∈ elems, ∃ n t, e = pageMarker n ++ t) :
    (pyJoin ('\n' :: '\n' :: []) elems).isEmpty = false ∧
    ¬((pyStrip (pyJoin ('\n' :: '\n' :: []) elems)).length < 10) := by
  obtain ⟨x, l, rfl⟩ : ∃ x l, elems = x :: l := by
    cases elems with
    | nil => exact absurd rfl hne
    | cons x l => exact ⟨x, l, rfl⟩
  obtain ⟨s, hs⟩ := pyJoin_cons ('\n' :: '\n' :: []) x l
  obtain ⟨n, t, hx⟩ := hall x (List.mem_cons_self x l)
  rw [hs, hx, List.append_assoc, pageMarker_append]
  refine ⟨rfl, ?_⟩
  unfold pyStrip
  have hdw : List.dropWhile pyWS
      (('-' :: '-' :: '-' :: ' ' :: 'P' :: 'a' :: 'g' :: 'e' :: ' ' ::
          (Nat.toDigits 10 n ++ (' ' :: '-' :: '-' :: [])))
        ++ '-' :: ('\n' :: (t ++ s)))
      = ('-' :: '-' :: '-' :: ' ' :: 'P' :: 'a' :: 'g' :: 'e' :: ' ' ::
          (Nat.toDigits 10 n ++ (' ' :: '-' :: '-' :: [])))
        ++ '-' :: ('\n' :: (t ++ s)) := by
    rw [List.cons_append, List.dropWhile_cons]
    simp [pyWS]
  rw [hdw]
  have hlen := dropTrailingWS_length_ge
    ('-' :: '-' :: '-' :: ' ' :: 'P' :: 'a' :: 'g' :: 'e' :: ' ' ::
      (Nat.toDigits 10 n ++ (' ' :: '-' :: '-' :: [])))
    '-' ('\n' :: (t ++ s)) rfl
  simp only [List.length_cons, List.length_append] at hlen ⊢
  omega

theorem ocr_fold_spec (ps : List PageOcr) :
    ∀ (n : Nat) (acc : List (List Char) × List ℚ × List Nat × List (List Char)),
    ((ps.enumFrom n).foldl ocrPageStep acc).1 = acc.1 ++ okTextPieces n ps ∧
    ((ps.enumFrom n).foldl ocrPageStep acc).2.2.1 = acc.2.2.1 ++ failedPagesFrom n ps := by
  induction ps with
  | nil => intro n acc; simp [okTextPieces, failedPagesFrom, List.enumFrom]
  | cons p rest ih =>
      intro n acc
      rw [show (p :: rest).enumFrom n = (n, p) :: rest.enumFrom (n + 1) from rfl,
        List.foldl_cons]
      cases p with
      | ok t conf =>
          by_cases hs : (pyStrip t).isEmpty
          · have hstep : ocrPageStep acc (n, .ok t conf)
                = (acc.1, acc.2.1 ++ [conf], acc.2.2.1 ++ [n + 1], acc.2.2.2) := by
              simp [ocrPageStep, hs]
            rw [hstep]
            obtain ⟨h1, h2⟩ := ih (n + 1)
              (acc.1, acc.2.1 ++ [conf], acc.2.2.1 ++ [n + 1], acc.2.2.2)
            refine ⟨?_, ?_⟩
            · rw [h1]; simp [okTextPieces, hs]
            · rw [h2]; simp [failedPagesFrom, hs]
          · have hstep : ocrPageStep acc (n, .ok t conf)
                = (acc.1 ++ [pageMarker (n + 1) ++ t], acc.2.1 ++ [conf],
                   acc.2.2.1, acc.2.2.2) := by
              simp [ocrPageStep, hs]
            rw [hstep]
            obtain ⟨h1, h2⟩ := ih (n + 1)
              (acc.1 ++ [pageMarker (n + 1) ++ t], acc.2.1 ++ [conf],
               acc.2.2.1, acc.2.2.2)
            refine ⟨?_, ?_⟩
            · rw [h1]; simp [okTextPieces, hs]
            · rw [h2]; simp [failedPagesFrom, hs]
      | err m =>
          have hstep : ocrPageStep acc (n, .err m)
              = (acc.1, acc.2.1, acc.2.2.1 ++ [n + 1],
                 acc.2.2.2 ++ [('O' :: 'C' :: 'R' :: ' ' :: 'f' :: 'a' :: 'i' :: 'l' :: 'e' :: 'd' :: ' ' :: 'f' :: 'o' :: 'r' :: ' ' :: 'p' :: 'a' :: 'g' :: 'e' :: ' ' :: Nat.toDigits 10 (n + 1)) ++ (':' :: ' ' :: m)]) := by
            simp [ocrPageStep]
          rw [hstep]
          obtain ⟨h1, h2⟩ := ih (n + 1) _
          refine ⟨?_, ?_⟩
          · rw [h1]; simp [okTextPieces]
          · rw [h2]; simp [failedPagesFrom]

theorem ocr_pdf_enhanced_spec (ps : List PageOcr) :
    (ocr_pdf_enhanced ps).1 = pyJoin ('\n' :: '\n' :: []) (okTextPieces 0 ps) ∧
    (ocr_pdf_enhanced ps).2.failed_pages = failedPagesFrom 0 ps := by
  unfold ocr_pdf_enhanced
  obtain ⟨h1, h2⟩ := ocr_fold_spec ps 0 ([], [], [], [])
  constructor
  · dsimp only
    rw [show ps.enum = ps.enumFrom 0 from rfl, h1]
    simp
  · dsimp only
    rw [show ps.enum = ps.enumFrom 0 from rfl, h2]
    simp

theorem okTextPieces_marker (ps : List PageOcr) :
    ∀ (n : Nat) (e : List Char), e ∈ okTextPieces n ps → ∃ m t, e = pageMarker m ++ t := by
  induction ps with
  | nil => intro n e he; simp [okTextPieces] at he
  | cons p rest ih =>
      intro n e he
      cases p with
      | ok t conf =>
          by_cases hs : (pyStrip t).isEmpty
          · rw [okTextPieces, if_pos hs] at he
            exact ih (n + 1) e he
          · rw [okTextPieces, if_neg hs] at he
            rcases List.mem_cons.mp he with h | h
            · exact ⟨n + 1, t, h⟩
            · exact ih (n + 1) e h
      | err m =>
          rw [okTextPieces] at he
          exact ih (n + 1) e he

theorem okTextPieces_eq_nil_iff (ps : List PageOcr) :
    ∀ n : Nat, (okTextPieces n ps = [] ↔
      ∀ p ∈ ps, ∀ t conf, p = PageOcr.ok t conf → (pyStrip t).isEmpty = true) := by
  induction ps with
  | nil => intro n; simp [okTextPieces]
  | cons p rest ih =>
      intro n
      cases p with
      | ok t conf =>
          by_cases hs : (pyStrip t).isEmpty
          · rw [okTextPieces, if_pos hs]
            rw [ih (n + 1)]
            constructor
            · intro h q hq t2 c2 hqe
              rcases List.mem_cons.mp hq with h1 | h1
              · rw [h1] at hqe
                obtain ⟨ht, _⟩ := PageOcr.ok.inj hqe
                rw [← ht]; exact hs
              · exact h q h1 t2 c2 hqe
            · intro h q hq t2 c2 hqe
              exact h q (List.mem_cons_of_mem _ hq) t2 c2 hqe
          · rw [okTextPieces, if_neg hs]
            constructor
            · intro h; exact absurd h (List.cons_ne_nil _ _)
            · intro h
              exact absurd (h _ (List.mem_cons_self _ _) t conf rfl) (by simpa using hs)
      | err m =>
          rw [okTextPieces]
          rw [ih (n + 1)]
          constructor
          · intro h q hq t2 c2 hqe
            rcases List.mem_cons.mp hq with h1 | h1
            · rw [h1] at hqe; exact absurd hqe (by simp)
            · exact h q h1 t2 c2 hqe
          · intro h q hq t2 c2 hqe
            exact h q (List.mem_cons_of_mem _ hq) t2 c2 hqe

theorem forall_mem_enum_iff (l : List (List Char)) (P : List Char → Prop) :
    (∀ p ∈ l.enum, P p.2) ↔ ∀ t ∈ l, P t := by
  constructor
  · intro h t ht
    have : t ∈ l.enum.map Prod.snd := by rw [List.enum_map_snd]; exact ht
    obtain ⟨p, hp, hpe⟩ := List.mem_map.mp this
    rw [← hpe]; exact h p hp
  · intro h p hp
    have : p.2 ∈ l.enum.map Prod.snd := List.mem_map_of_mem Prod.snd hp
    rw [List.enum_map_snd] at this
    exact h p.2 this

theorem directTextContent_eq_nil_iff (ps : List (List Char)) :
    directTextContent ps = [] ↔ ∀ t ∈ ps, (pyStrip t).isEmpty = true := by
  unfold directTextContent
  rw [List.map_eq_nil_iff, List.filter_eq_nil_iff]
  constructor
  · intro h t ht
    have := (forall_mem_enum_iff ps (fun t => ¬(!(pyStrip t).isEmpty) = true)).mp h t ht
    simpa using this
  · intro h p hp
    have hps : p.2 ∈ ps := by
      have hm : p.2 ∈ ps.enum.map Prod.snd := List.mem_map_of_mem Prod.snd hp
      rwa [List.enum_map_snd] at hm
    simp [h p.2 hps]

theorem directTextContent_marker (ps : List (List Char)) (e : List Char)
    (he : e ∈ directTextContent ps) : ∃ m t, e = pageMarker m ++ t := by
  unfold directTextContent at he
  obtain ⟨p, _, hpe⟩ := List.mem_map.mp he
  exact ⟨p.1 + 1, p.2, hpe.symm⟩

theorem ocr_task_fails_of_err (doc : DocumentRow) (input : FileInput)
    (e : List Char) (hx : process_document_ocr input = .error e) :
    (process_document_ocr_task doc input).isOk = false := by
  unfold process_document_ocr_task
  rw [hx]
  rfl

theorem ocr_task_fails_iff_gate (doc : DocumentRow) (input : FileInput)
    (text : List Char) (meta : OcrMeta)
    (hx : process_document_ocr input = .ok (text, meta)) :
    (process_document_ocr_task doc input).isOk = false ↔
      (text.isEmpty = true ∨ (pyStrip text).length < 10) := by
  unfold process_document_ocr_task
  rw [hx]
  dsimp only
  by_cases hg : (text.isEmpty || decide ((pyStrip text).length < 10)) = true
  · rw [if_pos hg]
    constructor
    · intro _
      simpa using hg
    · intro _
      rfl
  · rw [if_neg hg]
    constructor
    · intro habs
      exact absurd habs (by simp [Except.isOk, Except.toBool])
    · intro hr
      exact absurd (by simpa using hr) hg

theorem pdf_direct_text_ok (ps : List (List Char)) (ocr : Option (List PageOcr))
    (hD : directTextContent ps ≠ []) :
    ∃ meta, process_pdf_enhanced (some ps) ocr
      = .ok (pyJoin ('\n' :: '\n' :: []) (directTextContent ps), meta) := by
  unfold process_pdf_enhanced
  dsimp only
  have h1 : (directTextContent ps).isEmpty = false := by
    simpa using hD
  rw [h1]
  exact ⟨_, rfl⟩

theorem pdf_fallback_ocr (ps : List (List Char)) (qs : List PageOcr)
    (hD : directTextContent ps = []) :
    process_pdf_enhanced (some ps) (some qs) = .ok (ocr_pdf_enhanced qs) := by
  unfold process_pdf_enhanced
  dsimp only
  rw [hD]
  rfl

theorem pdf_fallback_none (ps : List (List Char))
    (hD : directTextContent ps = []) :
    process_pdf_enhanced (some ps) none
      = .error ('O' :: 'C' :: 'R' :: ' ' :: 'p' :: 'r' :: 'o' :: 'c' :: 'e' :: 's' :: 's' :: 'i' :: 'n' :: 'g' :: ' ' :: 'f' :: 'a' :: 'i' :: 'l' :: 'e' :: 'd' :: []) := by
  unfold process_pdf_enhanced
  dsimp only
  rw [hD]
  rfl

/-! ## C6 -/

/-- C6 counterexample: a plain-text document whose content is the
5-character text `Hello` produced non-empty text (its one page yielded
text), yet the extraction stage raises `OCR produced no usable text` —
the stage's gate is `len(text.strip()) < 10`, not "zero pages produced
text". -/
theorem C6_counterexample :
    process_document_ocr (.textFile ('H' :: 'e' :: 'l' :: 'l' :: 'o' :: []))
      = .ok (('H' :: 'e' :: 'l' :: 'l' :: 'o' :: []),
          { extraction_method := "direct_text", page_count := 0
            has_text_layer := false, ocr_confidence := []
            failed_pages := [], processing_errors := [] }) ∧
    ('H' :: 'e' :: 'l' :: 'l' :: 'o' :: []) ≠ [] ∧
    process_document_ocr_task cxDoc (.textFile ('H' :: 'e' :: 'l' :: 'l' :: 'o' :: []))
      = .error ("OCR processing failed: OCR produced no usable text".toList) := by
  exact ⟨rfl, by decide, rfl⟩

/-- C6 amended: restricted to PDF documents the claim holds: per-page
OCR failures are recorded in `failed_pages` without failing the stage,
and the stage raises if and only if no page — text-layer or OCR — yields
non-blank text (the ≥ 14-character page markers make the stage's
10-character gate equivalent to that condition); for image and
plain-text documents, however, the 10-character gate can raise even
though text was produced (see the counterexample). -/
theorem C6_amended_pdf_fails_iff_zero_page_text (doc : DocumentRow)
    (direct : Option (List (List Char))) (ocr : Option (List PageOcr)) :
    ((process_document_ocr_task doc (.pdf direct ocr)).isOk = false ↔
      ¬ extraction_yields_page_text direct ocr) ∧
    (∀ ps, (ocr_pdf_enhanced ps).2.failed_pages = failedPagesFrom 0 ps) := by
  refine ⟨?_, fun ps => (ocr_pdf_enhanced_spec ps).2⟩
  have hinput : process_document_ocr (.pdf direct ocr) = process_pdf_enhanced direct ocr := rfl
  cases direct with
  | some ps =>
      by_cases hD : directTextContent ps = []
      · have hblank : ∀ t ∈ ps, (pyStrip t).isEmpty = true :=
          (directTextContent_eq_nil_iff ps).mp hD
        cases ocr with
        | none =>
            have herr := pdf_fallback_none ps hD
            have hfail := ocr_task_fails_of_err doc (.pdf (some ps) none) _
              (hinput.trans herr)
            rw [hfail]
            constructor
            · intro _
              intro hy
              rcases hy with ⟨ps', hps', t, ht, hnb⟩ | ⟨qs, hqs, _⟩
              · obtain rfl : ps = ps' := by injection hps'
                exact hnb (hblank t ht)
              · exact absurd hqs (by simp)
            · intro _
              rfl
        | some qs =>
            have hfb := pdf_fallback_ocr ps qs hD
            have hx : process_document_ocr (.pdf (some ps) (some qs))
                = .ok ((ocr_pdf_enhanced qs).1, (ocr_pdf_enhanced qs).2) :=
              hinput.trans hfb
            rw [ocr_task_fails_iff_gate doc _ _ _ hx, (ocr_pdf_enhanced_spec qs).1]
            by_cases hq : okTextPieces 0 qs = []
            · rw [hq]
              simp only [pyJoin, List.isEmpty_nil, true_or, true_iff]
              intro hy
              rcases hy with ⟨ps', hps', t, ht, hnb⟩ | ⟨qs', hqs', p, hp, t, conf, hpe, hnb⟩
              · obtain rfl : ps = ps' := by injection hps'
                exact hnb (hblank t ht)
              · obtain rfl : qs = qs' := by injection hqs'
                exact hnb ((okTextPieces_eq_nil_iff qs 0).mp hq p hp t conf hpe)
            · obtain ⟨hne, hlong⟩ := marker_content_text_long (okTextPieces 0 qs) hq
                (fun e he => okTextPieces_marker qs 0 e he)
              constructor
              · intro hgate
                rcases hgate with h1 | h1
                · rw [hne] at h1; exact absurd h1 (by simp)
                · exact absurd h1 hlong
              · intro hy
                exfalso
                apply hy
                right
                refine ⟨qs, rfl, ?_⟩
                have hex : ¬∀ p ∈ qs, ∀ t conf, p = PageOcr.ok t conf →
                    (pyStrip t).isEmpty = true := by
                  intro hcon
                  exact hq ((okTextPieces_eq_nil_iff qs 0).mpr hcon)
                push_neg at hex
                obtain ⟨p, hp, t, conf, hpe, hnb⟩ := hex
                exact ⟨p, hp, t, conf, hpe, by simpa using hnb⟩
      · obtain ⟨meta, hok⟩ := pdf_direct_text_ok ps ocr hD
        have hx : process_document_ocr (.pdf (some ps) ocr)
            = .ok (pyJoin ('\n' :: '\n' :: []) (directTextContent ps), meta) :=
          hinput.trans hok
        rw [ocr_task_fails_iff_gate doc _ _ _ hx]
        obtain ⟨hne, hlong⟩ := marker_content_text_long (directTextContent ps) hD
          (fun e he => directTextContent_marker ps e he)
        constructor
        · intro hgate
          rcases hgate with h1 | h1
          · rw [hne] at h1; exact absurd h1 (by simp)
          · exact absurd h1 hlong
        · intro hy
          exfalso
          apply hy
          left
          have hex : ¬∀ t ∈ ps, (pyStrip t).isEmpty = true := by
            intro hcon
            exact hD ((directTextContent_eq_nil_iff ps).mpr hcon)
          push_neg at hex
          obtain ⟨t, ht, hnb⟩ := hex
          exact ⟨ps, rfl, t, ht, by simpa using hnb⟩
  | none =>
      cases ocr with
      | none =>
          have hfail := ocr_task_fails_of_err doc (.pdf none none) _ hinput
          rw [hfail]
          constructor
          · intro _
            intro hy
            rcases hy with ⟨ps', hps', _⟩ | ⟨qs, hqs, _⟩
            · exact absurd hps' (by simp)
            · exact absurd hqs (by simp)
          · intro _
            rfl
      | some qs =>
          have hx : process_document_ocr (.pdf none (some qs))
              = .ok ((ocr_pdf_enhanced qs).1, (ocr_pdf_enhanced qs).2) := hinput
          rw [ocr_task_fails_iff_gate doc _ _ _ hx, (ocr_pdf_enhanced_spec qs).1]
          by_cases hq : okTextPieces 0 qs = []
          · rw [hq]
            simp only [pyJoin, List.isEmpty_nil, true_or, true_iff]
            intro hy
            rcases hy with ⟨ps', hps', _⟩ | ⟨qs', hqs', p, hp, t, conf, hpe, hnb⟩
            · exact absurd hps' (by simp)
            · obtain rfl : qs = qs' := by injection hqs'
              exact hnb ((okTextPieces_eq_nil_iff qs 0).mp hq p hp t conf hpe)
          · obtain ⟨hne, hlong⟩ := marker_content_text_long (okTextPieces 0 qs) hq
              (fun e he => okTextPieces_marker qs 0 e he)
            constructor
            · intro hgate
              rcases hgate with h1 | h1
              · rw [hne] at h1; exact absurd h1 (by simp)
              · exact absurd h1 hlong
            · intro hy
              exfalso
              apply hy
              right
              refine ⟨qs, rfl, ?_⟩
              have hex : ¬∀ p ∈ qs, ∀ t conf, p = PageOcr.ok t conf →
                  (pyStrip t).isEmpty = true := by
                intro hcon
                exact hq ((okTextPieces_eq_nil_iff qs 0).mpr hcon)
              push_neg at hex
              obtain ⟨p, hp, t, conf, hpe, hnb⟩ := hex
              exact ⟨p, hp, t, conf, hpe, by simpa using hnb⟩

theorem C6_amended_pdf_fails_iff_zero_page_text_witness :
    ((process_document_ocr_task cxDoc
        (.pdf none (some (PageOcr.err ('b' :: 'o' :: 'o' :: 'm' :: [])
          :: PageOcr.ok cxText 9 :: [])))).isOk = false ↔
      ¬ extraction_yields_page_text none
        (some (PageOcr.err ('b' :: 'o' :: 'o' :: 'm' :: [])
          :: PageOcr.ok cxText 9 :: []))) ∧
    (ocr_pdf_enhanced (PageOcr.err ('b' :: 'o' :: 'o' :: 'm' :: [])
        :: PageOcr.ok cxText 9 :: [])).2.failed_pages
      = failedPagesFrom 0 (PageOcr.err ('b' :: 'o' :: 'o' :: 'm' :: [])
          :: PageOcr.ok cxText 9 :: []) := by
  have h := C6_amended_pdf_fails_iff_zero_page_text cxDoc none
    (some (PageOcr.err ('b' :: 'o' :: 'o' :: 'm' :: [])
      :: PageOcr.ok cxText 9 :: []))
  exact ⟨h.1, h.2 _⟩

/-! ## C8 lemmas -/

theorem any_map_general {α β : Type} (f : α → β) (l : List α) (p : β → Bool) :
    (l.map f).any p = l.any (fun a => p (f a)) := by
  induction l with
  | nil => rfl
  | cons a as ih => simp [List.any_cons, ih]

theorem foldl_max_le (l : List ℚ) (x : ℚ) :
    x ≤ l.foldl max x ∧ ∀ a ∈ l, a ≤ l.foldl max x := by
  induction l generalizing x with
  | nil => simp
  | cons y ys ih =>
      rw [List.foldl_cons]
      obtain ⟨h1, h2⟩ := ih (max x y)
      refine ⟨le_trans (le_max_left x y) h1, ?_⟩
      intro a ha
      rcases List.mem_cons.mp ha with rfl | ha2
      · exact le_trans (le_max_right x a) h1
      · exact h2 a ha2

theorem le_maxRelevance (rows : List KwRow) (r : KwRow) (hr : r ∈ rows) :
    r.relevance ≤ maxRelevance rows := by
  unfold maxRelevance
  cases hm : rows.map (fun r => r.relevance) with
  | nil =>
      rw [List.map_eq_nil_iff] at hm
      rw [hm] at hr
      exact absurd hr (List.not_mem_nil r)
  | cons x xs =>
      have hmem : r.relevance ∈ x :: xs := by
        rw [← hm]
        exact List.mem_map_of_mem _ hr
      rcases List.mem_cons.mp hmem with h | h
      · rw [h]
        exact (foldl_max_le xs x).1
      · exact (foldl_max_le xs x).2 _ h

theorem normalizedRelevance_unit (rows : List KwRow) (r : KwRow)
    (hr : r ∈ rows) (hnn : 0 ≤ r.relevance) :
    0 ≤ normalizedRelevance (maxRelevance rows) r.relevance ∧
    normalizedRelevance (maxRelevance rows) r.relevance ≤ 1 := by
  unfold normalizedRelevance
  by_cases h : 0 < maxRelevance rows
  · rw [if_pos h]
    exact ⟨div_nonneg hnn h.le, (div_le_one h).mpr (le_maxRelevance rows r hr)⟩
  · rw [if_neg h]
    exact ⟨le_refl 0, zero_le_one⟩

theorem kw_foldl_spec (maxRel kwW : ℚ) :
    ∀ (rows : List KwRow) (acc : List (Nat × ℚ)),
    (rows.map (fun r => r.chunk_id)).Nodup →
    (acc.map Prod.fst).Nodup →
    rows.foldl (kwStep maxRel kwW) acc
      = acc.map (fun p => (p.1, p.2 + kwAddition maxRel kwW rows p.1))
        ++ (rows.filter (fun r => !(acc.any (fun p => p.1 == r.chunk_id)))).map
            (fun r => (r.chunk_id, normalizedRelevance maxRel r.relevance * kwW)) := by
  intro rows
  induction rows with
  | nil =>
      intro acc _ _
      simp [kwAddition]
  | cons row rest ih =>
      intro acc hnr hna
      rw [List.map_cons] at hnr
      have hnr2 := List.nodup_cons.mp hnr
      have hrowni : row.chunk_id ∉ rest.map (fun r => r.chunk_id) := hnr2.1
      have hfindrest : rest.find? (fun r => r.chunk_id == row.chunk_id) = none := by
        rw [List.find?_eq_none]
        intro x hx
        simp only [beq_iff_eq]
        intro hex
        exact hrowni (by rw [← hex]; exact List.mem_map_of_mem _ hx)
      rw [List.foldl_cons]
      by_cases hmem : acc.any (fun p => p.1 == row.chunk_id) = true
      · have hstep : kwStep maxRel kwW acc row
            = acc.map (fun p => if p.1 == row.chunk_id
                then (p.1, p.2 + normalizedRelevance maxRel row.relevance * kwW)
                else p) := by
          unfold kwStep
          rw [if_pos hmem]
        rw [hstep]
        have hkeys : ((acc.map (fun p => if p.1 == row.chunk_id
            then (p.1, p.2 + normalizedRelevance maxRel row.relevance * kwW)
            else p)).map Prod.fst) = acc.map Prod.fst := by
          rw [List.map_map]
          apply List.map_congr_left
          intro p _
          by_cases hb : p.1 = row.chunk_id <;> simp [hb]
        rw [ih _ hnr2.2 (by rw [hkeys]; exact hna)]
        congr 1
        · rw [List.map_map]
          apply List.map_congr_left
          intro p _
          by_cases hb : p.1 = row.chunk_id
          · have hb2 : (p.1 == row.chunk_id) = true := by simpa using hb
            simp only [Function.comp_apply, hb2, if_true]
            have ha1 : kwAddition maxRel kwW rest p.1 = 0 := by
              unfold kwAddition
              rw [hb, hfindrest]
            have ha2 : kwAddition maxRel kwW (row :: rest) p.1
                = normalizedRelevance maxRel row.relevance * kwW := by
              unfold kwAddition
              rw [hb, List.find?_cons_of_pos _ (by simp)]
            rw [ha1, ha2, add_zero]
          · have hb2 : (p.1 == row.chunk_id) = false := by simpa using hb
            simp only [Function.comp_apply, hb2, Bool.false_eq_true, if_false]
            have ha3 : kwAddition maxRel kwW (row :: rest) p.1
                = kwAddition maxRel kwW rest p.1 := by
              unfold kwAddition
              rw [List.find?_cons_of_neg _ (by simpa using fun h => hb h.symm)]
            rw [ha3]
        · have hfc : rest.filter (fun r => !((acc.map (fun p => if p.1 == row.chunk_id
              then (p.1, p.2 + normalizedRelevance maxRel row.relevance * kwW)
              else p)).any (fun p => p.1 == r.chunk_id)))
                = rest.filter (fun r => !(acc.any (fun p => p.1 == r.chunk_id))) := by
            apply List.filter_congr
            intro r2 _
            rw [List.any_map]
            have hcomp : ((fun p : Nat × ℚ => p.1 == r2.chunk_id) ∘
                (fun p : Nat × ℚ => if p.1 == row.chunk_id
                  then (p.1, p.2 + normalizedRelevance maxRel row.relevance * kwW)
                  else p)) = (fun p : Nat × ℚ => p.1 == r2.chunk_id) := by
              funext p
              by_cases hb : p.1 = row.chunk_id <;> simp [hb]
            rw [hcomp]
          rw [hfc]
          rw [List.filter_cons]
          simp [hmem]
      · have hstep : kwStep maxRel kwW acc row
            = acc ++ [(row.chunk_id, normalizedRelevance maxRel row.relevance * kwW)] := by
          unfold kwStep
          rw [if_neg hmem]
        rw [hstep]
        have hnotin : ∀ p ∈ acc, ¬(p.1 = row.chunk_id) := by
          intro p hp he
          exact hmem (List.any_eq_true.mpr ⟨p, hp, by simpa using he⟩)
        have hkeys2 : (((acc ++ [(row.chunk_id,
            normalizedRelevance maxRel row.relevance * kwW)]).map Prod.fst)).Nodup := by
          rw [List.map_append]
          rw [List.nodup_append]
          refine ⟨hna, by simp, ?_⟩
          intro a ha
          simp only [List.map_cons, List.map_nil, List.mem_singleton]
          obtain ⟨p, hp, hpa⟩ := List.mem_map.mp ha
          intro hae
          exact hnotin p hp (by rw [hpa, hae])
        rw [ih _ hnr2.2 hkeys2]
        rw [List.map_append]
        have hFnew : ([(row.chunk_id, normalizedRelevance maxRel row.relevance * kwW)].map
            (fun p => (p.1, p.2 + kwAddition maxRel kwW rest p.1)))
              = [(row.chunk_id, normalizedRelevance maxRel row.relevance * kwW)] := by
          have ha1 : kwAddition maxRel kwW rest row.chunk_id = 0 := by
            unfold kwAddition
            rw [hfindrest]
          simp [ha1]
        rw [hFnew]
        have hmapF : acc.map (fun p => (p.1, p.2 + kwAddition maxRel kwW rest p.1))
            = acc.map (fun p => (p.1, p.2 + kwAddition maxRel kwW (row :: rest) p.1)) := by
          apply List.map_congr_left
          intro p hp
          have ha3 : kwAddition maxRel kwW (row :: rest) p.1
              = kwAddition maxRel kwW rest p.1 := by
            unfold kwAddition
            rw [List.find?_cons_of_neg _ (by
              simp only [beq_iff_eq]
              intro he
              exact hnotin p hp he.symm)]
          rw [ha3]
        rw [hmapF]
        have hfc2 : rest.filter (fun r => !((acc ++ [(row.chunk_id,
            normalizedRelevance maxRel row.relevance * kwW)]).any
              (fun p => p.1 == r.chunk_id)))
            = rest.filter (fun r => !(acc.any (fun p => p.1 == r.chunk_id))) := by
          apply List.filter_congr
          intro r2 hr2
          rw [List.any_append]
          have hone : ([(row.chunk_id, normalizedRelevance maxRel row.relevance * kwW)].any
              (fun p => p.1 == r2.chunk_id)) = false := by
            simp only [List.any_cons, List.any_nil, Bool.or_false]
            simp only [beq_eq_false_iff_ne, ne_eq]
            intro he
            exact hrowni (by rw [he]; exact List.mem_map_of_mem _ hr2)
          rw [hone]
          simp
        rw [hfc2]
        have hmf : (acc.any fun p => p.1 == row.chunk_id) = false := by
          cases hb : acc.any fun p => p.1 == row.chunk_id
          · rfl
          · exact absurd hb hmem
        rw [List.filter_cons]
        simp [hmf]

/-! ## C8 -/

/-- C8: with distinct chunk ids inside each candidate set and
non-negative lexical relevances (as `ts_rank` returns), every candidate
in `combined_scores` — the union of the semantic candidates and the
keyword-only candidates — carries exactly the score
`semantic_weight * similarity + keyword_weight * normalized_relevance`,
where `normalized_relevance` is the row's relevance divided by the
maximum relevance of the keyword candidate set and lies in `[0, 1]`
(similarity is 0 for keyword-only candidates, relevance 0 for candidates
without a keyword row); `hybrid_search` ranks that union by the combined
score descending, truncated to the limit. -/
theorem C8_hybrid_combined_score_and_ranking
    (semantic_results : List SemResult) (keyword_rows : List KwRow)
    (semantic_weight keyword_weight : ℚ) (lim : Nat)
    (hsem : (semantic_results.map (fun r => r.chunk_id)).Nodup)
    (hkw : (keyword_rows.map (fun r => r.chunk_id)).Nodup)
    (hnn : ∀ r ∈ keyword_rows, 0 ≤ r.relevance) :
    combined_scores semantic_results keyword_rows semantic_weight keyword_weight
      = hybridSpecScores semantic_results keyword_rows semantic_weight keyword_weight ∧
    hybrid_search semantic_results keyword_rows semantic_weight keyword_weight lim
      = (List.insertionSort simGE
          (hybridSpecScores semantic_results keyword_rows
            semantic_weight keyword_weight)).take lim ∧
    (∀ r ∈ keyword_rows,
      0 ≤ normalizedRelevance (maxRelevance keyword_rows) r.relevance ∧
      normalizedRelevance (maxRelevance keyword_rows) r.relevance ≤ 1) ∧
    List.Sorted simGE
      (hybrid_search semantic_results keyword_rows semantic_weight keyword_weight lim) ∧
    (hybrid_search semantic_results keyword_rows
      semantic_weight keyword_weight lim).length ≤ lim := by
  have hinit : ((semantic_results.map
      (fun r => (r.chunk_id, r.similarity_score * semantic_weight))).map Prod.fst).Nodup := by
    rw [List.map_map]
    exact hsem
  have hmain : combined_scores semantic_results keyword_rows semantic_weight keyword_weight
      = hybridSpecScores semantic_results keyword_rows semantic_weight keyword_weight := by
    unfold combined_scores
    rw [kw_foldl_spec (maxRelevance keyword_rows) keyword_weight keyword_rows _ hkw hinit]
    unfold hybridSpecScores
    dsimp only
    congr 1
    · rw [List.map_map]
      apply List.map_congr_left
      intro r _
      simp only [Function.comp_apply]
      congr 1
      rw [mul_comm]
      congr 1
      unfold kwAddition
      cases hf : keyword_rows.find? (fun r2 => r2.chunk_id == r.chunk_id) with
      | some s => rw [mul_comm]
      | none => simp [normalizedRelevance]
    · have hfilt : keyword_rows.filter (fun r =>
          !((semantic_results.map
            (fun r0 => (r0.chunk_id, r0.similarity_score * semantic_weight))).any
              (fun p => p.1 == r.chunk_id)))
          = keyword_rows.filter (fun row =>
              !(semantic_results.any (fun r => r.chunk_id == row.chunk_id))) := by
        apply List.filter_congr
        intro r2 _
        rw [any_map_general]
      rw [hfilt]
      apply List.map_congr_left
      intro r2 _
      congr 1
      rw [mul_zero, zero_add, mul_comm]
  refine ⟨hmain, ?_, ?_, ?_, ?_⟩
  · unfold hybrid_search
    rw [hmain]
  · intro r hr
    exact normalizedRelevance_unit keyword_rows r hr (hnn r hr)
  · unfold hybrid_search
    exact List.Pairwise.sublist (List.take_sublist _ _)
      (List.sorted_insertionSort simGE _)
  · unfold hybrid_search
    rw [List.length_take]
    exact min_le_left _ _

theorem C8_hybrid_combined_score_and_ranking_witness :
    combined_scores (⟨1, 0⟩ :: []) (⟨2, 2⟩ :: ⟨1, 1⟩ :: []) (7 / 10) (3 / 10)
      = hybridSpecScores (⟨1, 0⟩ :: []) (⟨2, 2⟩ :: ⟨1, 1⟩ :: []) (7 / 10) (3 / 10) ∧
    List.Sorted simGE
      (hybrid_search (⟨1, 0⟩ :: []) (⟨2, 2⟩ :: ⟨1, 1⟩ :: []) (7 / 10) (3 / 10) 10) ∧
    (hybrid_search (⟨1, 0⟩ :: []) (⟨2, 2⟩ :: ⟨1, 1⟩ :: []) (7 / 10) (3 / 10) 10).length ≤ 10 := by
  have h := C8_hybrid_combined_score_and_ranking (⟨1, 0⟩ :: [])
    (⟨2, 2⟩ :: ⟨1, 1⟩ :: []) (7 / 10) (3 / 10) 10
    (by decide) (by decide) (by decide)
  exact ⟨h.1, h.2.2.2.1, h.2.2.2.2⟩

end SolicitorBrain
